import Mathlib

/-!
Shallow embedding of the CHIP-8 interpreter core of this repository
(`src/chip8.rs`, with the host dispatch of `src/environ.rs`), and proofs
about it.

Modelling conventions:
* Machine bytes and words are `Nat` with explicit wrap (`% 256`, `% 65536`)
  exactly where the Rust code wraps (`as u8`, `as u16`, `wrapping_sub`,
  `u8` shifts).  Bit operations (`&`, `|`, `^`, `>>`, `<<`) are kept as the
  corresponding `Nat` bitwise operations.
* Fixed Rust arrays (`memory: [u8; 4096]`, `reg: [u8; 16]`,
  `video_memory: Vec<u8>` of length 2048, `keypad: [bool; 16]`) are modelled
  as total functions `Nat → _`; every place where the Rust code indexes such
  an array is guarded by the corresponding bound check, and an index that
  would be out of range in Rust (a panic, i.e. an abort of the process) is
  modelled by the `StepOut.crash` / `Option.none` outcome.
* `rand::ThreadRng::gen::<u8>()` is modelled by a byte `rnd` passed by the
  caller of `teak`; it is the only source of nondeterminism and is
  irrelevant to every claim proved here.
-/

/-- Pointwise update of a function modelling a mutable array slot. -/
def upd {α : Type} (f : Nat → α) (i : Nat) (v : α) : Nat → α :=
  fun j => if j = i then v else f j

/-- The four historical quirk toggles (`struct Quirks` in `chip8.rs`). -/
structure Quirks where
  vf_reset : Bool
  memory : Bool
  shifting : Bool
  jumping : Bool
deriving DecidableEq

/-- `impl Default for Quirks` in `chip8.rs`. -/
def Quirks.default : Quirks :=
  { vf_reset := true, memory := false, shifting := true, jumping := false }

/-- `enum State` in `chip8.rs` (named apart from `_root_`-level clashes). -/
inductive MachineState where
  | Running
  | Paused
  | Terminated
deriving DecidableEq

/-- Decoded instruction view (`struct Instruction` in `chip8.rs`). -/
structure Instruction where
  header : Nat
  nnn : Nat
  nn : Nat
  n : Nat
  x : Nat
  y : Nat
deriving DecidableEq

/-- `enum Error` in `chip8.rs`. -/
inductive Err where
  | RomTooBig (size : Nat)
  | UnknownInstruction (i : Instruction)
  | StackOverflow
  | EmptyStack
deriving DecidableEq

/-- `Instruction::with_opcode` in `chip8.rs`. -/
def Instruction.withOpcode (opcode : Nat) : Instruction :=
  { header := (opcode >>> 12) &&& 0xf
    nnn := opcode &&& 0xfff
    nn := opcode &&& 0xff
    n := opcode &&& 0x0f
    x := (opcode >>> 8) &&& 0xf
    y := (opcode >>> 4) &&& 0xf }

/-- `Instruction::with_bytes` in `chip8.rs`. -/
def Instruction.withBytes (high low : Nat) : Instruction :=
  Instruction.withOpcode ((high <<< 8) ||| low)

/-- The machine (`struct Chip8` in `chip8.rs`).  The `rng` field of the Rust
struct is replaced by the `rnd` argument of `teak`; all other fields are
carried verbatim. -/
@[ext]
structure Chip8 where
  reg : Nat → Nat
  ri : Nat
  dt : Nat
  st : Nat
  sp : Nat
  pc : Nat
  memory : Nat → Nat
  video : Nat → Nat
  keypad : Nat → Bool
  state : MachineState
  rom : List Nat
  quirks : Quirks

/-- `FONT_SPRITES` in `chip8.rs`: 16 glyphs of 5 bytes each. -/
def FONT_SPRITES : List Nat :=
  [0xF0, 0x90, 0x90, 0x90, 0xF0,
   0x20, 0x60, 0x20, 0x20, 0x70,
   0xF0, 0x10, 0xF0, 0x80, 0xF0,
   0xF0, 0x10, 0xF0, 0x10, 0xF0,
   0x90, 0x90, 0xF0, 0x10, 0x10,
   0xF0, 0x80, 0xF0, 0x10, 0xF0,
   0xF0, 0x80, 0xF0, 0x90, 0xF0,
   0xF0, 0x10, 0x20, 0x40, 0x40,
   0xF0, 0x90, 0xF0, 0x90, 0xF0,
   0xF0, 0x90, 0xF0, 0x10, 0xF0,
   0xF0, 0x90, 0xF0, 0x90, 0x90,
   0xE0, 0x90, 0xE0, 0x90, 0xE0,
   0xF0, 0x80, 0x80, 0x80, 0xF0,
   0xE0, 0x90, 0x90, 0x90, 0xE0,
   0xF0, 0x80, 0xF0, 0x80, 0xF0,
   0xF0, 0x80, 0xF0, 0x80, 0x80]

/-- Outcome of one fetch-decode-execute cycle.  `crash` models a Rust panic
(out-of-bounds array index), `fault` models `Err(e)` returned with the
machine as mutated so far, `ok` models `Ok(())`. -/
inductive StepOut where
  | crash : StepOut
  | fault : Err → Chip8 → StepOut
  | ok : Chip8 → StepOut

/-- Memory contents rebuilt by `Chip8::reset`: all zero, then the ROM copied
at 0x200, then the font table copied at 0x50 (the two regions are disjoint,
the font is written last). -/
def resetMemory (rom : List Nat) : Nat → Nat :=
  fun a =>
    if 0x50 ≤ a ∧ a < 0x50 + 80 then FONT_SPRITES.getD (a - 0x50) 0
    else if 0x200 ≤ a ∧ a - 0x200 < rom.length then rom.getD (a - 0x200) 0
    else 0

/-- `Chip8::reset` in `chip8.rs`: every field except `rom` and `quirks` is
reinitialised from scratch. -/
def Chip8.reset (m : Chip8) : Chip8 :=
  { reg := fun _ => 0
    ri := 0
    dt := 0
    st := 0
    sp := 0
    pc := 0x200
    memory := resetMemory m.rom
    video := fun _ => 0
    keypad := fun _ => false
    state := .Running
    rom := m.rom
    quirks := m.quirks }

/-- `Chip8::with_rom` in `chip8.rs`: reject a ROM larger than
`4096 - 0x200` bytes, otherwise build the machine and `reset` it. -/
def with_rom (rom : List Nat) (quirks : Quirks) : Except Err Chip8 :=
  if 4096 - 0x200 < rom.length then .error (.RomTooBig rom.length)
  else .ok (Chip8.reset
    { reg := fun _ => 0, ri := 0, dt := 0, st := 0, sp := 0, pc := 0x200
      memory := fun _ => 0, video := fun _ => 0, keypad := fun _ => false
      state := .Paused, rom := rom, quirks := quirks })

/-- `Chip8::terminate`. -/
def terminate (m : Chip8) : Chip8 := { m with state := .Terminated }

/-- `Chip8::toggle_execution`. -/
def toggle_execution (m : Chip8) : Chip8 :=
  { m with state :=
      match m.state with
      | .Paused => .Running
      | .Running => .Paused
      | .Terminated => .Terminated }

/-- `Chip8::on_timer`: both timers decrement, saturating at 0 (`Nat`
subtraction is saturating). -/
def on_timer (m : Chip8) : Chip8 := { m with dt := m.dt - 1, st := m.st - 1 }

/-- `Chip8::key_down`.  `keypad` has 16 entries in Rust, so a code ≥ 16
panics there; that is the `none` case. -/
def key_down (code : Nat) (m : Chip8) : Option Chip8 :=
  if code < 16 then some { m with keypad := upd m.keypad code true } else none

/-- `Chip8::key_up`. -/
def key_up (code : Nat) (m : Chip8) : Option Chip8 :=
  if code < 16 then some { m with keypad := upd m.keypad code false } else none

/-- `Chip8::push`: bounds-checked against `STACK_SIZE = 16`, stores the
value big-endian at `STACK_BASE_ADDRESS (0x10) + sp * 2`. -/
def push (value : Nat) (m : Chip8) : Except Err Chip8 :=
  if m.sp = 16 then .error .StackOverflow
  else
    let high := (value >>> 8) % 256
    let low := value &&& 0xff
    .ok { m with
      memory := upd (upd m.memory (0x10 + m.sp * 2) high) (0x10 + m.sp * 2 + 1) low
      sp := m.sp + 1 }

/-- `Chip8::pop`: bounds-checked against 0, reads the two bytes back. -/
def pop (m : Chip8) : Except Err (Nat × Chip8) :=
  if m.sp = 0 then .error .EmptyStack
  else
    let sp1 := m.sp - 1
    let high := m.memory (0x10 + sp1 * 2)
    let low := m.memory (0x10 + sp1 * 2 + 1)
    .ok ((high <<< 8) ||| low, { m with sp := sp1 })

/-- `Chip8::op_clear_screen`. -/
def op_clear_screen (m : Chip8) : Chip8 := { m with video := fun _ => 0 }

/-- `Chip8::op_return`: `pc = pop()?`. -/
def op_return (m : Chip8) : Except Err Chip8 :=
  (pop m).map fun p => { p.2 with pc := p.1 }

/-- `Chip8::op_jmp`. -/
def op_jmp (address : Nat) (m : Chip8) : Chip8 := { m with pc := address }

/-- `Chip8::op_call`: push the current (already advanced) pc as a `u16`,
then jump. -/
def op_call (address : Nat) (m : Chip8) : Except Err Chip8 :=
  (push (m.pc % 65536) m).map fun m1 => { m1 with pc := address }

/-- `Chip8::op_skip_eq`. -/
def op_skip_eq (x value : Nat) (m : Chip8) : Chip8 :=
  if m.reg x = value then { m with pc := m.pc + 2 } else m

/-- `Chip8::op_skip_ne`. -/
def op_skip_ne (x value : Nat) (m : Chip8) : Chip8 :=
  if m.reg x ≠ value then { m with pc := m.pc + 2 } else m

/-- `Chip8::op_skip_reg_eq`. -/
def op_skip_reg_eq (x y : Nat) (m : Chip8) : Chip8 :=
  if m.reg x = m.reg y then { m with pc := m.pc + 2 } else m

/-- `Chip8::op_skip_reg_ne`. -/
def op_skip_reg_ne (x y : Nat) (m : Chip8) : Chip8 :=
  if m.reg x ≠ m.reg y then { m with pc := m.pc + 2 } else m

/-- `Chip8::op_mov`. -/
def op_mov (x value : Nat) (m : Chip8) : Chip8 :=
  { m with reg := upd m.reg x value }

/-- `Chip8::op_add`: `(value + Vx) & 0xff`, no flag. -/
def op_add (x value : Nat) (m : Chip8) : Chip8 :=
  { m with reg := upd m.reg x ((value + m.reg x) &&& 0xff) }

/-- `Chip8::op_reg_mov`. -/
def op_reg_mov (x y : Nat) (m : Chip8) : Chip8 :=
  { m with reg := upd m.reg x (m.reg y) }

/-- `Chip8::op_or`, with the `vf_reset` quirk applied afterwards. -/
def op_or (x y : Nat) (m : Chip8) : Chip8 :=
  let m1 := { m with reg := upd m.reg x (m.reg x ||| m.reg y) }
  if m1.quirks.vf_reset then { m1 with reg := upd m1.reg 0xf 0 } else m1

/-- `Chip8::op_and`. -/
def op_and (x y : Nat) (m : Chip8) : Chip8 :=
  let m1 := { m with reg := upd m.reg x (m.reg x &&& m.reg y) }
  if m1.quirks.vf_reset then { m1 with reg := upd m1.reg 0xf 0 } else m1

/-- `Chip8::op_xor`. -/
def op_xor (x y : Nat) (m : Chip8) : Chip8 :=
  let m1 := { m with reg := upd m.reg x (m.reg x ^^^ m.reg y) }
  if m1.quirks.vf_reset then { m1 with reg := upd m1.reg 0xf 0 } else m1

/-- `Chip8::op_reg_add`: carry into VF, sum wrapped to a byte.  VF is
written after Vx, as in the source. -/
def op_reg_add (x y : Nat) (m : Chip8) : Chip8 :=
  let sum := m.reg x + m.reg y
  let vf := if 0xff < sum then 1 else 0
  { m with reg := upd (upd m.reg x (sum &&& 0xff)) 0xf vf }

/-- `Chip8::op_reg_sub`: `a.wrapping_sub(b)` on bytes is
`(a + 256 - b) % 256`. -/
def op_reg_sub (x y : Nat) (m : Chip8) : Chip8 :=
  let a := m.reg x
  let b := m.reg y
  let vf := if b ≤ a then 1 else 0
  { m with reg := upd (upd m.reg x ((a + 256 - b) % 256)) 0xf vf }

/-- `Chip8::op_shr`: with the `shifting` quirk unset, Vy is copied into Vx
first; VF receives the shifted-out bit. -/
def op_shr (x y : Nat) (m : Chip8) : Chip8 :=
  let r := if m.quirks.shifting then m.reg x else m.reg y
  { m with reg := upd (upd m.reg x (r >>> 1)) 0xf (r &&& 1) }

/-- `Chip8::op_reg_sub_rev`. -/
def op_reg_sub_rev (x y : Nat) (m : Chip8) : Chip8 :=
  let a := m.reg x
  let b := m.reg y
  let vf := if a ≤ b then 1 else 0
  { m with reg := upd (upd m.reg x ((b + 256 - a) % 256)) 0xf vf }

/-- `Chip8::op_shl`: a `u8` left shift discards the top bit, hence the
`% 256`. -/
def op_shl (x y : Nat) (m : Chip8) : Chip8 :=
  let r := if m.quirks.shifting then m.reg x else m.reg y
  { m with reg := upd (upd m.reg x ((r <<< 1) % 256)) 0xf (r >>> 7) }

/-- `Chip8::op_mov_ptr`. -/
def op_mov_ptr (address : Nat) (m : Chip8) : Chip8 := { m with ri := address }

/-- `Chip8::op_reg_jmp`: base register selected by the `jumping` quirk. -/
def op_reg_jmp (address : Nat) (m : Chip8) : Chip8 :=
  let base := if m.quirks.jumping then m.reg ((address >>> 8) &&& 0xf) else m.reg 0
  { m with pc := base + address }

/-- `Chip8::op_rand`: `rnd` stands for `self.rng.gen::<u8>()`. -/
def op_rand (x value rnd : Nat) (m : Chip8) : Chip8 :=
  { m with reg := upd m.reg x (value &&& rnd) }

/-- Inner pixel loop of `Chip8::op_display`: columns `j, j+1, …` while
`k` iterations remain, stopping early (`break`) once `col + j` leaves the
64-wide screen.  Returns the updated framebuffer and collision flag. -/
def blitRow (b r col : Nat) : Nat → Nat → (Nat → Nat) → Nat → (Nat → Nat) × Nat
  | _, 0, video, vf => (video, vf)
  | j, k + 1, video, vf =>
    let c := col + j
    if 64 ≤ c then (video, vf)
    else
      let idx := r * 64 + c
      let prev := video idx
      let pixel := (b >>> (7 - j)) &&& 1
      let vf1 := if 0 < prev &&& pixel then 1 else vf
      blitRow b r col (j + 1) k (upd video idx (prev ^^^ pixel)) vf1

/-- Outer row loop of `Chip8::op_display`: rows `i, i+1, …` while `k`
iterations remain, stopping early once `row + i` leaves the 32-high
screen. -/
def blitRows (mem : Nat → Nat) (ptr row col : Nat) :
    Nat → Nat → (Nat → Nat) → Nat → (Nat → Nat) × Nat
  | _, 0, video, vf => (video, vf)
  | i, k + 1, video, vf =>
    let r := row + i
    if 32 ≤ r then (video, vf)
    else
      let p := blitRow (mem (ptr + i)) r col 0 8 video vf
      blitRows mem ptr row col (i + 1) k p.1 p.2

/-- `Chip8::op_display`: origin wrapped (`Vy % 32`, `Vx % 64`), sprite bytes
taken from `memory[I..I+n]` (the slice panics when `I + n > 4096`, the
`none` case), VF reset to 0 before the loops. -/
def op_display (x y n : Nat) (m : Chip8) : Option Chip8 :=
  let row := m.reg y % 32
  let col := m.reg x % 64
  let ptr := m.ri
  if 4096 < ptr + n then none
  else
    let p := blitRows m.memory ptr row col 0 n m.video 0
    some { m with video := p.1, reg := upd m.reg 0xf p.2 }

/-- `Chip8::op_bdc`: BCD digits of Vx at `memory[I..=I+2]`, panicking
(`none`) when `I + 2 ≥ 4096`. -/
def op_bdc (x : Nat) (m : Chip8) : Option Chip8 :=
  let val := m.reg x
  let ptr := m.ri
  if ptr + 2 < 4096 then
    some { m with memory :=
      (upd (upd (upd m.memory ptr (val / 100 % 10)) (ptr + 1) (val / 10 % 10))
        (ptr + 2) (val % 10)) }
  else none

/-- `Chip8::op_reg_dump`: `memory[I+o] = V o` for `o = 0..=x`, panicking
(`none`) when `I + x ≥ 4096`; the `memory` quirk then bumps I. -/
def op_reg_dump (x : Nat) (m : Chip8) : Option Chip8 :=
  let ptr := m.ri
  if ptr + x < 4096 then
    let mem := (List.range (x + 1)).foldl
      (fun mm offset => upd mm (ptr + offset) (m.reg offset)) m.memory
    some { m with memory := mem
                  ri := if m.quirks.memory then (m.ri + x + 1) % 65536 else m.ri }
  else none

/-- `Chip8::op_reg_load`: `V o = memory[I+o]` for `o = 0..=x`. -/
def op_reg_load (x : Nat) (m : Chip8) : Option Chip8 :=
  let ptr := m.ri
  if ptr + x < 4096 then
    let r := (List.range (x + 1)).foldl
      (fun rr offset => upd rr offset (m.memory (ptr + offset))) m.reg
    some { m with reg := r
                  ri := if m.quirks.memory then (m.ri + x + 1) % 65536 else m.ri }
  else none

/-- `Chip8::op_ptr_add`: `I += Vx` on a `u16`, hence the wrap. -/
def op_ptr_add (x : Nat) (m : Chip8) : Chip8 :=
  { m with ri := (m.ri + m.reg x) % 65536 }

/-- `Chip8::op_mov_font_addr`: `I = FONT_BASE_ADDRESS (0x50) + Vx * 5`. -/
def op_mov_font_addr (x : Nat) (m : Chip8) : Chip8 :=
  { m with ri := 0x50 + m.reg x * 5 }

/-- `Chip8::op_set_delay`. -/
def op_set_delay (x : Nat) (m : Chip8) : Chip8 := { m with dt := m.reg x }

/-- `Chip8::op_set_sound`. -/
def op_set_sound (x : Nat) (m : Chip8) : Chip8 := { m with st := m.reg x }

/-- `Chip8::op_dump_delay`. -/
def op_dump_delay (x : Nat) (m : Chip8) : Chip8 :=
  { m with reg := upd m.reg x m.dt }

/-- `Chip8::op_skip_key_eq`: `keypad[Vx]` panics when `Vx ≥ 16`. -/
def op_skip_key_eq (x : Nat) (m : Chip8) : Option Chip8 :=
  if m.reg x < 16 then
    some (if m.keypad (m.reg x) then { m with pc := m.pc + 2 } else m)
  else none

/-- `Chip8::op_skip_key_ne`. -/
def op_skip_key_ne (x : Nat) (m : Chip8) : Option Chip8 :=
  if m.reg x < 16 then
    some (if m.keypad (m.reg x) then m else { m with pc := m.pc + 2 })
  else none

/-- `keypad.iter().enumerate().find(|(_, pressed)| *pressed)` over the keys
`i, i+1, …` while `k` entries remain. -/
def findPressedAux (kp : Nat → Bool) : Nat → Nat → Option Nat
  | _, 0 => none
  | i, k + 1 => if kp i then some i else findPressedAux kp (i + 1) k

/-- First (lowest-numbered) pressed key of the 16-key pad, if any. -/
def findPressed (kp : Nat → Bool) : Option Nat := findPressedAux kp 0 16

/-- `Chip8::op_wait_key`: memory byte 0 (`KB_WAIT_KEYCODE_ADDRESS`) holds a
flag bit 7 plus the recorded key code.  With the flag set and the recorded
key released, the instruction completes (Vx receives the code, the scratch
byte is cleared, pc keeps its advanced value); in every other case pc is
rewound by 2, recording the lowest pressed key first if the flag was
clear. -/
def op_wait_key (x : Nat) (m : Chip8) : Chip8 :=
  let val := m.memory 0x000
  if val >>> 7 = 1 then
    let key := val &&& 0xf
    if m.keypad key = false then
      { m with reg := upd m.reg x key, memory := upd m.memory 0x000 0 }
    else { m with pc := m.pc - 2 }
  else
    match findPressed m.keypad with
    | some key => { m with memory := upd m.memory 0x000 ((1 <<< 7) ||| key)
                           pc := m.pc - 2 }
    | none => { m with pc := m.pc - 2 }

/-- Dispatch of `Chip8::teak` after the fetch and the pc advance: the match
on the header nibble and the per-family sub-selector, including the
`UnknownInstruction` arms. -/
def exec (i : Instruction) (m : Chip8) (rnd : Nat) : StepOut :=
  match i.header with
  | 0x0 =>
    match i.nnn with
    | 0xe0 => .ok (op_clear_screen m)
    | 0xee =>
      match op_return m with
      | .error e => .fault e m
      | .ok m1 => .ok m1
    | _ => .ok m
  | 0x1 => .ok (op_jmp i.nnn m)
  | 0x2 =>
    match op_call i.nnn m with
    | .error e => .fault e m
    | .ok m1 => .ok m1
  | 0x3 => .ok (op_skip_eq i.x i.nn m)
  | 0x4 => .ok (op_skip_ne i.x i.nn m)
  | 0x5 => .ok (op_skip_reg_eq i.x i.y m)
  | 0x6 => .ok (op_mov i.x i.nn m)
  | 0x7 => .ok (op_add i.x i.nn m)
  | 0x8 =>
    match i.n with
    | 0x0 => .ok (op_reg_mov i.x i.y m)
    | 0x1 => .ok (op_or i.x i.y m)
    | 0x2 => .ok (op_and i.x i.y m)
    | 0x3 => .ok (op_xor i.x i.y m)
    | 0x4 => .ok (op_reg_add i.x i.y m)
    | 0x5 => .ok (op_reg_sub i.x i.y m)
    | 0x6 => .ok (op_shr i.x i.y m)
    | 0x7 => .ok (op_reg_sub_rev i.x i.y m)
    | 0xe => .ok (op_shl i.x i.y m)
    | _ => .fault (.UnknownInstruction i) m
  | 0x9 => .ok (op_skip_reg_ne i.x i.y m)
  | 0xa => .ok (op_mov_ptr i.nnn m)
  | 0xb => .ok (op_reg_jmp i.nnn m)
  | 0xc => .ok (op_rand i.x i.nn rnd m)
  | 0xd =>
    match op_display i.x i.y i.n m with
    | some m1 => .ok m1
    | none => .crash
  | 0xe =>
    match i.nn with
    | 0x9e =>
      match op_skip_key_eq i.x m with
      | some m1 => .ok m1
      | none => .crash
    | 0xa1 =>
      match op_skip_key_ne i.x m with
      | some m1 => .ok m1
      | none => .crash
    | _ => .fault (.UnknownInstruction i) m
  | 0xf =>
    match i.nn with
    | 0x07 => .ok (op_dump_delay i.x m)
    | 0x0a => .ok (op_wait_key i.x m)
    | 0x15 => .ok (op_set_delay i.x m)
    | 0x18 => .ok (op_set_sound i.x m)
    | 0x1e => .ok (op_ptr_add i.x m)
    | 0x29 => .ok (op_mov_font_addr i.x m)
    | 0x33 =>
      match op_bdc i.x m with
      | some m1 => .ok m1
      | none => .crash
    | 0x55 =>
      match op_reg_dump i.x m with
      | some m1 => .ok m1
      | none => .crash
    | 0x65 =>
      match op_reg_load i.x m with
      | some m1 => .ok m1
      | none => .crash
    | _ => .fault (.UnknownInstruction i) m
  | _ => .fault (.UnknownInstruction i) m

/-- `Chip8::teak`: fetch two bytes at `pc` (a fetch past the end of memory
panics in Rust), advance pc by 2, dispatch. -/
def teak (m : Chip8) (rnd : Nat) : StepOut :=
  if m.pc + 1 < 4096 then
    exec (Instruction.withBytes (m.memory m.pc) (m.memory (m.pc + 1)))
      { m with pc := m.pc + 2 } rnd
  else .crash

/-- The spec's `step()`, realised in this repository by the dispatch on
`machine.get_state()` in the run loop of `environ.rs`: `teak` only in the
Running state, no machine change otherwise.  (The host's reaction to a
returned error — logging and terminating — is host policy and not part of
the machine operation.) -/
def step (m : Chip8) (rnd : Nat) : StepOut :=
  match m.state with
  | .Terminated => .ok m
  | .Running => teak m rnd
  | .Paused => .ok m

/-- One host-visible operation between construction and reset, as issued by
the event loop of `environ.rs`. -/
inductive HostOp where
  | tick (rnd : Nat)
  | timer
  | keyDown (code : Nat)
  | keyUp (code : Nat)
  | toggle

/-- Apply one host operation; `none` models a Rust panic (after which no
further operation can be issued). -/
def applyOp (op : HostOp) (m : Chip8) : Option Chip8 :=
  match op with
  | .tick rnd =>
    match step m rnd with
    | .crash => none
    | .fault _ m1 => some m1
    | .ok m1 => some m1
  | .timer => some (on_timer m)
  | .keyDown c => key_down c m
  | .keyUp c => key_up c m
  | .toggle => some (toggle_execution m)

/-- Apply a finite sequence of host operations. -/
def applyOps : List HostOp → Chip8 → Option Chip8
  | [], m => some m
  | op :: ops, m =>
    match applyOp op m with
    | some m1 => applyOps ops m1
    | none => none

/-- Iterated `push` (the stack halves of successive call instructions). -/
def pushList : List Nat → Chip8 → Except Err Chip8
  | [], m => .ok m
  | v :: vs, m =>
    match push v m with
    | .ok m1 => pushList vs m1
    | .error e => .error e

/-- Iterated `pop`, returning the popped values top-first. -/
def popList : Nat → Chip8 → Except Err (List Nat × Chip8)
  | 0, m => .ok ([], m)
  | k + 1, m =>
    match pop m with
    | .error e => .error e
    | .ok (v, m1) =>
      match popList k m1 with
      | .error e => .error e
      | .ok (vs, m2) => .ok (v :: vs, m2)

/-! ### Arithmetic bridges between bitwise and modular forms -/

lemma upd_same {α : Type} (f : Nat → α) (i : Nat) (v : α) : upd f i v i = v := by
  simp [upd]

lemma upd_ne {α : Type} (f : Nat → α) (i j : Nat) (v : α) (h : j ≠ i) :
    upd f i v j = f j := by
  simp [upd, h]

lemma and_255_eq_mod (a : Nat) : a &&& 255 = a % 256 := by
  have h := Nat.and_pow_two_sub_one_eq_mod a 8
  norm_num at h
  exact h

lemma and_15_eq_mod (a : Nat) : a &&& 15 = a % 16 := by
  simpa using Nat.and_pow_two_sub_one_eq_mod a 4

lemma and_4095_eq_mod (a : Nat) : a &&& 4095 = a % 4096 := by
  simpa using Nat.and_pow_two_sub_one_eq_mod a 12

lemma and_1_eq_mod (a : Nat) : a &&& 1 = a % 2 :=
  Nat.and_pow_two_sub_one_eq_mod a 1

lemma shiftRight_4 (a : Nat) : a >>> 4 = a / 16 := by
  rw [Nat.shiftRight_eq_div_pow]

lemma shiftRight_7 (a : Nat) : a >>> 7 = a / 128 := by
  rw [Nat.shiftRight_eq_div_pow]

lemma shiftRight_8 (a : Nat) : a >>> 8 = a / 256 := by
  rw [Nat.shiftRight_eq_div_pow]

lemma shiftRight_12 (a : Nat) : a >>> 12 = a / 4096 := by
  rw [Nat.shiftRight_eq_div_pow]

lemma lor_shift8 (a b : Nat) (hb : b < 256) : a <<< 8 ||| b = a * 256 + b := by
  have h256 : (2 : Nat) ^ 8 = 256 := by norm_num
  apply Nat.eq_of_testBit_eq
  intro i
  rw [Nat.testBit_lor, Nat.testBit_shiftLeft]
  rcases Nat.lt_or_ge i 8 with h | h
  · have hge : ¬ (i ≥ 8) := by omega
    have hmod : (a * 256 + b) % 2 ^ 8 = b := by rw [h256]; omega
    have ht := Nat.testBit_mod_two_pow (a * 256 + b) 8 i
    rw [hmod] at ht
    simp [hge, h] at ht ⊢
    exact ht
  · have hdiv : (a * 256 + b) >>> 8 = a := by
      rw [Nat.shiftRight_eq_div_pow, h256]; omega
    have hbf : b.testBit i = false := by
      apply Nat.testBit_lt_two_pow
      calc b < 256 := hb
        _ = 2 ^ 8 := by norm_num
        _ ≤ 2 ^ i := Nat.pow_le_pow_right (by norm_num) h
    have ht := @Nat.testBit_shiftRight 8 (i - 8) (a * 256 + b)
    rw [hdiv] at ht
    have h8 : 8 + (i - 8) = i := by omega
    rw [h8] at ht
    simp [hbf, h, Nat.le_of_lt, ht]

/-- Decoding two fetched bytes yields the obvious nibble decomposition. -/
lemma withBytes_decode (c b : Nat) (hc : c < 256) (hb : b < 256) :
    Instruction.withBytes c b =
      { header := c / 16, nnn := (c % 16) * 256 + b, nn := b, n := b % 16,
        x := c % 16, y := b / 16 } := by
  unfold Instruction.withBytes Instruction.withOpcode
  rw [lor_shift8 c b hb]
  simp only [Instruction.mk.injEq, shiftRight_4, shiftRight_8, shiftRight_12,
    and_15_eq_mod, and_255_eq_mod, and_4095_eq_mod]
  refine ⟨by omega, by omega, by omega, by omega, by omega, by omega⟩

lemma teak_eq_exec (m : Chip8) (rnd : Nat) (h : m.pc + 1 < 4096) :
    teak m rnd =
      exec (Instruction.withBytes (m.memory m.pc) (m.memory (m.pc + 1)))
        { m with pc := m.pc + 2 } rnd := by
  unfold teak
  rw [if_pos h]

/-! ### Construction (claim C6) -/

/-- C6: for every ROM of length L and every quirk bundle, construction
succeeds iff `L ≤ 4096 - 0x200`, failing with `RomTooBig L` otherwise; and
on success memory byte `0x200 + i` equals ROM byte `i` for every
`i < L`. -/
theorem construct_rom_size_and_load (rom : List Nat) (q : Quirks) :
    ((∃ m, with_rom rom q = Except.ok m) ↔ rom.length ≤ 4096 - 0x200)
    ∧ (4096 - 0x200 < rom.length →
        with_rom rom q = Except.error (Err.RomTooBig rom.length))
    ∧ (∀ m i, with_rom rom q = Except.ok m → i < rom.length →
        m.memory (0x200 + i) = rom.getD i 0) := by
  unfold with_rom
  by_cases h : 4096 - 0x200 < rom.length
  · rw [if_pos h]
    refine ⟨⟨?_, ?_⟩, fun _ => rfl, ?_⟩
    · rintro ⟨m, hm⟩
      cases hm
    · intro hle
      omega
    · intro m i hm
      cases hm
  · rw [if_neg h]
    refine ⟨⟨fun _ => by omega, fun _ => ⟨_, rfl⟩⟩, fun hlt => absurd hlt h, ?_⟩
    intro m i hm hi
    injection hm with hm
    subst hm
    show resetMemory rom (0x200 + i) = rom.getD i 0
    unfold resetMemory
    rw [if_neg (by omega), if_pos ⟨by omega, by omega⟩]
    have he : 0x200 + i - 0x200 = i := by omega
    rw [he]

/-- Witness for C6 at concrete ROMs. -/
theorem construct_rom_size_and_load_witness :
    (∃ m, with_rom [7, 9] Quirks.default = Except.ok m)
    ∧ with_rom (List.replicate 3585 0) Quirks.default =
        Except.error (Err.RomTooBig 3585)
    ∧ (∀ m, with_rom [7, 9] Quirks.default = Except.ok m →
        m.memory 0x201 = 9) := by
  refine ⟨((construct_rom_size_and_load [7, 9] Quirks.default).1).mpr
            (by norm_num), ?_, ?_⟩
  · have h := (construct_rom_size_and_load (List.replicate 3585 0)
      Quirks.default).2.1 (by rw [List.length_replicate]; norm_num)
    rw [List.length_replicate] at h
    exact h
  · intro m hm
    have h := (construct_rom_size_and_load [7, 9] Quirks.default).2.2 m 1 hm
      (by norm_num)
    simpa using h

/-! ### The step contract (claim C1) -/

/-- C1: `step()` — the state dispatch of the `environ.rs` run loop — is a
no-op returning the machine unchanged when the state is Paused or
Terminated, and executes exactly one instruction (one `teak` cycle) when
the state is Running. -/
theorem step_gating (m : Chip8) (rnd : Nat) :
    (m.state = MachineState.Paused ∨ m.state = MachineState.Terminated →
      step m rnd = StepOut.ok m)
    ∧ (m.state = MachineState.Running → step m rnd = teak m rnd) := by
  unfold step
  constructor
  · rintro (h | h) <;> rw [h]
  · intro h
    rw [h]

/-- A concrete machine used by several witnesses: all-zero state, empty
ROM, default quirks, Paused. -/
def pausedM : Chip8 :=
  { reg := fun _ => 0, ri := 0, dt := 0, st := 0, sp := 0, pc := 0x200
    memory := fun _ => 0, video := fun _ => 0, keypad := fun _ => false
    state := .Paused, rom := [], quirks := Quirks.default }

/-- `pausedM` in the Running state. -/
def runningM : Chip8 := { pausedM with state := .Running }

/-- `pausedM` in the Terminated state. -/
def termM : Chip8 := { pausedM with state := .Terminated }

/-- Witness for C1 at concrete machines. -/
theorem step_gating_witness :
    step pausedM 0 = StepOut.ok pausedM
    ∧ step termM 0 = StepOut.ok termM
    ∧ step runningM 0 = teak runningM 0 :=
  ⟨(step_gating pausedM 0).1 (Or.inl rfl),
   (step_gating termM 0).1 (Or.inr rfl),
   (step_gating runningM 0).2 rfl⟩

/-! ### Terminated state (claim C8) -/

/-- C8 refuted: `Chip8::reset` unconditionally sets the state to Running,
also from Terminated, so Terminated is not terminal under `reset`. -/
theorem terminated_reset_counterexample :
    termM.state = MachineState.Terminated
    ∧ (Chip8.reset termM).state = MachineState.Running
    ∧ MachineState.Running ≠ MachineState.Terminated :=
  ⟨rfl, rfl, by decide⟩

/-- C8 (amended): a Terminated machine stays Terminated under every public
operation except `reset()`: `toggle_execution`, `step`, `on_timer`,
`key_down`, `key_up` and `terminate` all preserve Terminated, while
`reset()` leaves Terminated by setting the state to Running. -/
theorem terminated_is_terminal_except_reset (m : Chip8) (rnd c : Nat)
    (h : m.state = MachineState.Terminated) :
    (toggle_execution m).state = MachineState.Terminated
    ∧ step m rnd = StepOut.ok m
    ∧ (on_timer m).state = MachineState.Terminated
    ∧ (∀ m1, key_down c m = some m1 → m1.state = MachineState.Terminated)
    ∧ (∀ m1, key_up c m = some m1 → m1.state = MachineState.Terminated)
    ∧ (terminate m).state = MachineState.Terminated
    ∧ (Chip8.reset m).state = MachineState.Running := by
  refine ⟨?_, ?_, ?_, ?_, ?_, rfl, rfl⟩
  · simp [toggle_execution, h]
  · unfold step
    rw [h]
  · simp [on_timer, h]
  · intro m1 hm1
    unfold key_down at hm1
    split at hm1
    · injection hm1 with hm1
      subst hm1
      exact h
    · cases hm1
  · intro m1 hm1
    unfold key_up at hm1
    split at hm1
    · injection hm1 with hm1
      subst hm1
      exact h
    · cases hm1

/-- Witness for the amended C8 at a concrete Terminated machine. -/
theorem terminated_is_terminal_except_reset_witness :
    (toggle_execution termM).state = MachineState.Terminated
    ∧ step termM 0 = StepOut.ok termM
    ∧ (Chip8.reset termM).state = MachineState.Running :=
  ⟨(terminated_is_terminal_except_reset termM 0 0 rfl).1,
   (terminated_is_terminal_except_reset termM 0 0 rfl).2.1,
   (terminated_is_terminal_except_reset termM 0 0 rfl).2.2.2.2.2.2⟩

/-! ### Stack discipline (claim C5) -/

lemma step_running (m : Chip8) (rnd : Nat)
    (h : m.state = MachineState.Running) : step m rnd = teak m rnd := by
  unfold step
  rw [h]

lemma push_pop_byte_recomb (v : Nat) (hv : v < 65536) :
    (((v >>> 8) % 256) <<< 8) ||| (v &&& 0xff) = v := by
  rw [and_255_eq_mod, lor_shift8 _ _ (by omega), shiftRight_8]
  omega

lemma teak_call_ok (m : Chip8) (rnd d b : Nat)
    (hpc : m.pc + 1 < 4096) (hd : d < 16) (hb : b < 256)
    (h0 : m.memory m.pc = 0x20 + d) (h1 : m.memory (m.pc + 1) = b)
    (hsp : m.sp < 16) :
    teak m rnd = StepOut.ok
      { m with
        memory := upd (upd m.memory (0x10 + m.sp * 2) ((((m.pc + 2) % 65536) >>> 8) % 256))
          (0x10 + m.sp * 2 + 1) ((m.pc + 2) % 65536 &&& 0xff)
        sp := m.sp + 1
        pc := d * 256 + b } := by
  rw [teak_eq_exec m rnd hpc, h0, h1, withBytes_decode _ _ (by omega) hb]
  have hh : (0x20 + d) / 16 = 2 := by omega
  have hn : (0x20 + d) % 16 = d := by omega
  simp only [hh, hn]
  simp only [exec, op_call, push]
  rw [if_neg (by omega)]
  simp [Except.map]

lemma teak_call_overflow (m : Chip8) (rnd d b : Nat)
    (hpc : m.pc + 1 < 4096) (hd : d < 16) (hb : b < 256)
    (h0 : m.memory m.pc = 0x20 + d) (h1 : m.memory (m.pc + 1) = b)
    (hsp : m.sp = 16) :
    teak m rnd = StepOut.fault Err.StackOverflow { m with pc := m.pc + 2 } := by
  rw [teak_eq_exec m rnd hpc, h0, h1, withBytes_decode _ _ (by omega) hb]
  have hh : (0x20 + d) / 16 = 2 := by omega
  simp only [hh]
  simp only [exec, op_call, push]
  rw [if_pos (by omega)]
  rfl

lemma teak_ret_ok (m : Chip8) (rnd : Nat)
    (hpc : m.pc + 1 < 4096)
    (h0 : m.memory m.pc = 0x00) (h1 : m.memory (m.pc + 1) = 0xee)
    (hsp : 0 < m.sp) :
    teak m rnd = StepOut.ok
      { m with sp := m.sp - 1
               pc := (m.memory (0x10 + (m.sp - 1) * 2) <<< 8) |||
                 m.memory (0x10 + (m.sp - 1) * 2 + 1) } := by
  rw [teak_eq_exec m rnd hpc, h0, h1, withBytes_decode _ _ (by omega) (by omega)]
  norm_num
  simp only [exec, op_return, pop]
  rw [if_neg (by omega)]
  simp [Except.map]

lemma teak_ret_empty (m : Chip8) (rnd : Nat)
    (hpc : m.pc + 1 < 4096)
    (h0 : m.memory m.pc = 0x00) (h1 : m.memory (m.pc + 1) = 0xee)
    (hsp : m.sp = 0) :
    teak m rnd = StepOut.fault Err.EmptyStack { m with pc := m.pc + 2 } := by
  rw [teak_eq_exec m rnd hpc, h0, h1, withBytes_decode _ _ (by omega) (by omega)]
  norm_num
  simp only [exec, op_return, pop]
  rw [if_pos (by omega)]
  rfl

lemma push_ok (v : Nat) (m : Chip8) (h : m.sp < 16) :
    push v m = Except.ok { m with
      memory := upd (upd m.memory (0x10 + m.sp * 2) ((v >>> 8) % 256))
        (0x10 + m.sp * 2 + 1) (v &&& 0xff)
      sp := m.sp + 1 } := by
  unfold push
  rw [if_neg (by omega)]

lemma pushList_props : ∀ (vs : List Nat) (m M : Chip8),
    pushList vs m = Except.ok M →
    M.sp = m.sp + vs.length
    ∧ (∀ a, a < 0x10 + m.sp * 2 → M.memory a = m.memory a) := by
  intro vs
  induction vs with
  | nil =>
    intro m M hp
    injection hp with hp
    subst hp
    exact ⟨by simp, fun a _ => rfl⟩
  | cons v tl ih =>
    intro m M hp
    unfold pushList at hp
    split at hp
    · rename_i m1 heq
      unfold push at heq
      split at heq
      · cases heq
      · rename_i hsp
        injection heq with heq
        subst heq
        obtain ⟨ihsp, ihmem⟩ := ih _ M hp
        dsimp only at ihsp ihmem
        constructor
        · simp only [List.length_cons]
          omega
        · intro a ha
          rw [ihmem a (by omega), upd_ne _ _ _ _ (by omega), upd_ne _ _ _ _ (by omega)]
    · cases hp

lemma popList_snoc : ∀ (k : Nat) (m : Chip8) (vs : List Nat) (m1 : Chip8)
    (v : Nat) (m2 : Chip8),
    popList k m = Except.ok (vs, m1) → pop m1 = Except.ok (v, m2) →
    popList (k + 1) m = Except.ok (vs ++ [v], m2) := by
  intro k
  induction k with
  | zero =>
    intro m vs m1 v m2 h1 h2
    unfold popList at h1
    injection h1 with h1
    injection h1 with h3 h4
    subst h3
    subst h4
    simp [popList, h2]
  | succ k ih =>
    intro m vs m1 v m2 h1 h2
    unfold popList at h1
    split at h1
    · cases h1
    · rename_i w m3 heqpop
      split at h1
      · cases h1
      · rename_i ws m4 heqrec
        injection h1 with h1
        injection h1 with h3 h4
        subst h3
        subst h4
        have hrec := ih m3 ws _ v m2 heqrec h2
        unfold popList
        simp only [heqpop]
        rw [hrec]
        simp

lemma stack_lifo : ∀ (vs : List Nat) (m M : Chip8),
    m.sp + vs.length ≤ 16 → (∀ v ∈ vs, v < 65536) →
    pushList vs m = Except.ok M →
    ∃ M2, popList vs.length M = Except.ok (vs.reverse, M2)
      ∧ M2.sp = m.sp ∧ M2.memory = M.memory := by
  intro vs
  induction vs with
  | nil =>
    intro m M hlen hv hp
    injection hp with hp
    subst hp
    exact ⟨_, by simp [popList], rfl, rfl⟩
  | cons v tl ih =>
    intro m M hlen hv hp
    have hsp : m.sp < 16 := by simp at hlen; omega
    unfold pushList at hp
    split at hp
    · rename_i m1 heq
      rw [push_ok v m hsp] at heq
      injection heq with heq
      subst heq
      obtain ⟨M2, hpop, hsp2, hmem2⟩ := ih _ M
        (by dsimp only; simp only [List.length_cons] at hlen; omega)
        (fun w hw => hv w (List.mem_cons_of_mem _ hw)) hp
      obtain ⟨hMsp, hMmem⟩ := pushList_props _ _ M hp
      dsimp only at hsp2 hMsp hMmem
      have hbytes_hi : M2.memory (0x10 + m.sp * 2) = (v >>> 8) % 256 := by
        rw [hmem2, hMmem _ (by omega), upd_ne _ _ _ _ (by omega), upd_same]
      have hbytes_lo : M2.memory (0x10 + m.sp * 2 + 1) = v &&& 0xff := by
        rw [hmem2, hMmem _ (by omega), upd_same]
      have hpopM2 : pop M2 = Except.ok (v, { M2 with sp := m.sp }) := by
        unfold pop
        rw [if_neg (by omega)]
        dsimp only
        rw [show M2.sp - 1 = m.sp from by omega]
        rw [hbytes_hi, hbytes_lo, push_pop_byte_recomb v (hv v (by simp))]
      have hfin := popList_snoc tl.length M tl.reverse M2 v
        { M2 with sp := m.sp } hpop hpopM2
      refine ⟨{ M2 with sp := m.sp }, ?_, rfl, hmem2⟩
      simpa using hfin
    · cases hp

/-- C5: the stack is strict LIFO with capacity 16 (N pushes then N pops
return the values in reverse insertion order and restore sp); a call
instruction pushes the already-advanced pc (so the popped return value is
`(pc+2) mod 2^16`) and fails with StackOverflow as a `step()` result when
sp is already 16; a return instruction restores pc from the stack top and
fails with EmptyStack as a `step()` result when sp is 0. -/
theorem stack_discipline :
    (∀ (vs : List Nat) (m M : Chip8), m.sp + vs.length ≤ 16 →
      (∀ v ∈ vs, v < 65536) → pushList vs m = Except.ok M →
      ∃ M2, popList vs.length M = Except.ok (vs.reverse, M2) ∧ M2.sp = m.sp)
    ∧ (∀ (m : Chip8) (rnd d b : Nat), m.state = MachineState.Running →
        m.pc + 1 < 4096 → d < 16 → b < 256 →
        m.memory m.pc = 0x20 + d → m.memory (m.pc + 1) = b → m.sp < 16 →
        ∃ M, step m rnd = StepOut.ok M ∧ M.pc = d * 256 + b ∧ M.sp = m.sp + 1
          ∧ pop M = Except.ok ((m.pc + 2) % 65536, { M with sp := m.sp }))
    ∧ (∀ (m : Chip8) (rnd d b : Nat), m.state = MachineState.Running →
        m.pc + 1 < 4096 → d < 16 → b < 256 →
        m.memory m.pc = 0x20 + d → m.memory (m.pc + 1) = b → m.sp = 16 →
        step m rnd = StepOut.fault Err.StackOverflow { m with pc := m.pc + 2 })
    ∧ (∀ (m : Chip8) (rnd : Nat), m.state = MachineState.Running →
        m.pc + 1 < 4096 → m.memory m.pc = 0x00 → m.memory (m.pc + 1) = 0xee →
        0 < m.sp →
        step m rnd = StepOut.ok { m with
          sp := m.sp - 1
          pc := (m.memory (0x10 + (m.sp - 1) * 2) <<< 8) |||
            m.memory (0x10 + (m.sp - 1) * 2 + 1) })
    ∧ (∀ (m : Chip8) (rnd : Nat), m.state = MachineState.Running →
        m.pc + 1 < 4096 → m.memory m.pc = 0x00 → m.memory (m.pc + 1) = 0xee →
        m.sp = 0 →
        step m rnd = StepOut.fault Err.EmptyStack { m with pc := m.pc + 2 }) := by
  refine ⟨?_, ?_, ?_, ?_, ?_⟩
  · intro vs m M h1 h2 h3
    obtain ⟨M2, ha, hb, _⟩ := stack_lifo vs m M h1 h2 h3
    exact ⟨M2, ha, hb⟩
  · intro m rnd d b hstate hpc hd hb h0 h1 hsp
    have ht := teak_call_ok m rnd d b hpc hd hb h0 h1 hsp
    refine ⟨{ m with
        memory := upd (upd m.memory (0x10 + m.sp * 2)
            ((((m.pc + 2) % 65536) >>> 8) % 256))
          (0x10 + m.sp * 2 + 1) ((m.pc + 2) % 65536 &&& 0xff)
        sp := m.sp + 1
        pc := d * 256 + b }, ?_, rfl, rfl, ?_⟩
    · rw [step_running m rnd hstate]
      exact ht
    · unfold pop
      dsimp only
      rw [if_neg (by omega)]
      rw [show m.sp + 1 - 1 = m.sp from by omega]
      rw [upd_ne _ _ _ _ (by omega), upd_same, upd_same]
      rw [push_pop_byte_recomb _ (by omega)]
  · intro m rnd d b hstate hpc hd hb h0 h1 hsp
    rw [step_running m rnd hstate]
    exact teak_call_overflow m rnd d b hpc hd hb h0 h1 hsp
  · intro m rnd hstate hpc h0 h1 hsp
    rw [step_running m rnd hstate]
    exact teak_ret_ok m rnd hpc h0 h1 hsp
  · intro m rnd hstate hpc h0 h1 hsp
    rw [step_running m rnd hstate]
    exact teak_ret_empty m rnd hpc h0 h1 hsp

/-- Machine with a call instruction 0x2345 at the program base. -/
def callM : Chip8 :=
  { runningM with
    memory := fun a => if a = 0x200 then 0x23 else if a = 0x201 then 0x45 else 0 }

/-- `callM` with a full stack. -/
def overflowM : Chip8 := { callM with sp := 16 }

/-- Machine with a return instruction 0x00EE at the program base and one
stack entry. -/
def retM : Chip8 :=
  { runningM with
    memory := fun a => if a = 0x200 then 0x00 else if a = 0x201 then 0xee else 0
    sp := 1 }

/-- `retM` with an empty stack. -/
def emptyM : Chip8 := { retM with sp := 0 }

/-- Witness for C5 at concrete machines. -/
theorem stack_discipline_witness :
    (∃ M M2, pushList [4660, 2748] runningM = Except.ok M
      ∧ popList 2 M = Except.ok ([2748, 4660], M2) ∧ M2.sp = 0)
    ∧ (∃ M, step callM 0 = StepOut.ok M ∧ M.pc = 0x345 ∧ M.sp = 1)
    ∧ step overflowM 0 = StepOut.fault Err.StackOverflow
        { overflowM with pc := 0x202 }
    ∧ step retM 0 = StepOut.ok { retM with sp := 0, pc := 0 }
    ∧ step emptyM 0 = StepOut.fault Err.EmptyStack { emptyM with pc := 0x202 } := by
  refine ⟨?_, ?_, ?_, ?_, ?_⟩
  · obtain ⟨M2, h1, h2⟩ := stack_discipline.1 [4660, 2748] runningM _
      (by decide) (by decide) rfl
    exact ⟨_, M2, rfl, h1, h2⟩
  · obtain ⟨M, h1, h2, h3, _⟩ := stack_discipline.2.1 callM 0 3 0x45 rfl
      (by decide) (by decide) (by decide) rfl rfl (by decide)
    exact ⟨M, h1, by rw [h2], h3⟩
  · exact stack_discipline.2.2.1 overflowM 0 3 0x45 rfl (by decide) (by decide)
      (by decide) rfl rfl rfl
  · exact stack_discipline.2.2.2.1 retM 0 rfl (by decide) rfl rfl (by decide)
  · exact stack_discipline.2.2.2.2 emptyM 0 rfl (by decide) rfl rfl rfl

/-! ### Memory-mapped stack (claim C10) -/

/-- C10: each pushed stack entry is stored big-endian in memory bytes
`0x10 + 2*sp` and `0x10 + 2*sp + 1`, each pop reads the entry back from
those bytes, and the entries are ordinary memory: a register dump with the
index register pointing at the top entry overwrites what a subsequent
return/pop reads, and a register load with the index register pointing at a
pushed entry reads its two bytes into V0 and V1. -/
theorem stack_memory_mapped :
    (∀ (m : Chip8) (v : Nat), m.sp < 16 →
      push v m = Except.ok { m with
        memory := upd (upd m.memory (0x10 + m.sp * 2) ((v >>> 8) % 256))
          (0x10 + m.sp * 2 + 1) (v &&& 0xff)
        sp := m.sp + 1 })
    ∧ (∀ m : Chip8, 0 < m.sp →
        pop m = Except.ok ((m.memory (0x10 + (m.sp - 1) * 2) <<< 8) |||
          m.memory (0x10 + (m.sp - 1) * 2 + 1), { m with sp := m.sp - 1 }))
    ∧ (∀ m : Chip8, 0 < m.sp → m.sp ≤ 16 → m.ri = 0x10 + (m.sp - 1) * 2 →
        ∃ m1, op_reg_dump 1 m = some m1
          ∧ pop m1 = Except.ok ((m.reg 0 <<< 8) ||| m.reg 1,
              { m1 with sp := m.sp - 1 }))
    ∧ (∀ (m : Chip8) (v : Nat), m.sp < 16 → m.ri = 0x10 + m.sp * 2 →
        ∀ m1, push v m = Except.ok m1 →
        ∃ m2, op_reg_load 1 m1 = some m2
          ∧ m2.reg 0 = (v >>> 8) % 256 ∧ m2.reg 1 = v &&& 0xff) := by
  refine ⟨?_, ?_, ?_, ?_⟩
  · intro m v h
    exact push_ok v m h
  · intro m h
    unfold pop
    rw [if_neg (by omega)]
  · intro m hsp hsp16 hri
    unfold op_reg_dump
    dsimp only
    rw [hri, if_pos (by omega)]
    have hr2 : List.range 2 = [0, 1] := rfl
    rw [hr2]
    simp only [List.foldl]
    refine ⟨_, rfl, ?_⟩
    unfold pop
    dsimp only
    rw [if_neg (by omega)]
    rw [show 0x10 + (m.sp - 1) * 2 + 0 = 0x10 + (m.sp - 1) * 2 from by omega]
    rw [upd_ne _ _ _ _ (by omega), upd_same, upd_same]
  · intro m v hsp hri m1 hpush
    rw [push_ok v m hsp] at hpush
    injection hpush with hpush
    subst hpush
    unfold op_reg_load
    dsimp only
    rw [hri, if_pos (by omega)]
    have hr2 : List.range 2 = [0, 1] := rfl
    rw [hr2]
    simp only [List.foldl]
    refine ⟨_, rfl, ?_, ?_⟩
    · dsimp only
      rw [upd_ne _ _ _ _ (by omega), upd_same]
      rw [show 0x10 + m.sp * 2 + 0 = 0x10 + m.sp * 2 from by omega]
      rw [upd_ne _ _ _ _ (by omega), upd_same]
    · dsimp only
      rw [upd_same, upd_same]

/-- Machine with one stack entry (bytes 0x9A 0xBC at 0x10-0x11), V0=0xAB,
V1=0xCD, index register at the top stack slot. -/
def stackM : Chip8 :=
  { runningM with
    sp := 1
    ri := 0x10
    reg := fun i => if i = 0 then 0xAB else if i = 1 then 0xCD else 0
    memory := fun a => if a = 0x10 then 0x9A else if a = 0x11 then 0xBC else 0 }

/-- Machine with empty stack and the index register at the first stack
slot. -/
def loadM : Chip8 := { runningM with ri := 0x10 }

/-- Witness for C10 at concrete machines. -/
theorem stack_memory_mapped_witness :
    (∃ m1, push 0x1234 runningM = Except.ok m1 ∧ m1.memory 0x10 = 0x12
      ∧ m1.memory 0x11 = 0x34 ∧ m1.sp = 1)
    ∧ pop stackM = Except.ok (0x9ABC, { stackM with sp := 0 })
    ∧ (∃ m1, op_reg_dump 1 stackM = some m1
        ∧ pop m1 = Except.ok (0xABCD, { m1 with sp := 0 }))
    ∧ (∃ m1 m2, push 0x1234 loadM = Except.ok m1 ∧ op_reg_load 1 m1 = some m2
        ∧ m2.reg 0 = 0x12 ∧ m2.reg 1 = 0x34) := by
  refine ⟨⟨_, stack_memory_mapped.1 runningM 0x1234 (by decide), by decide,
    by decide, by decide⟩, ?_, ?_, ?_⟩
  · exact stack_memory_mapped.2.1 stackM (by decide)
  · obtain ⟨m1, h1, h2⟩ := stack_memory_mapped.2.2.1 stackM (by decide)
      (by decide) rfl
    exact ⟨m1, h1, h2⟩
  · obtain ⟨m2, h1, h2, h3⟩ := stack_memory_mapped.2.2.2 loadM 0x1234
      (by decide) rfl _ rfl
    exact ⟨_, m2, rfl, h1, h2, h3⟩

/-! ### Index-register addressing (claim C3) -/

/-- C3 (amended): memory accesses through the index register use its value
unmasked — no truncation to 12 bits — and the only bounds checking is the
one that aborts: draw-sprite aborts (Rust panic) exactly when `I + n`
exceeds 4096, store-BCD exactly when `I + 2 ≥ 4096`, register dump and
load exactly when `I + x ≥ 4096`; add-index performs no memory access and
wraps I modulo 2^16. -/
theorem index_register_no_mask :
    (∀ (x y n : Nat) (m : Chip8), op_display x y n m = none ↔ 4096 < m.ri + n)
    ∧ (∀ (x : Nat) (m : Chip8), op_bdc x m = none ↔ 4096 ≤ m.ri + 2)
    ∧ (∀ (x : Nat) (m : Chip8), op_reg_dump x m = none ↔ 4096 ≤ m.ri + x)
    ∧ (∀ (x : Nat) (m : Chip8), op_reg_load x m = none ↔ 4096 ≤ m.ri + x)
    ∧ (∀ (x : Nat) (m : Chip8), op_ptr_add x m =
        { m with ri := (m.ri + m.reg x) % 65536 }) := by
  refine ⟨?_, ?_, ?_, ?_, fun x m => rfl⟩
  · intro x y n m
    unfold op_display
    dsimp only
    by_cases h : 4096 < m.ri + n
    · rw [if_pos h]
      simp [h]
    · rw [if_neg h]
      simp [h]
  · intro x m
    unfold op_bdc
    dsimp only
    by_cases h : m.ri + 2 < 4096
    · rw [if_pos h]
      simp
      omega
    · rw [if_neg h]
      simp
      omega
  · intro x m
    unfold op_reg_dump
    dsimp only
    by_cases h : m.ri + x < 4096
    · rw [if_pos h]
      simp
      omega
    · rw [if_neg h]
      simp
      omega
  · intro x m
    unfold op_reg_load
    dsimp only
    by_cases h : m.ri + x < 4096
    · rw [if_pos h]
      simp
      omega
    · rw [if_neg h]
      simp
      omega

/-- C3 refuted on a reachable state: the ROM sets I = 0xFFF, V1 = 1, adds
V1 to I (I = 0x1000) and then executes store-BCD; the fourth `step()`
aborts (Rust panics indexing `memory[0x1000]`) instead of returning a
result, and no 12-bit truncation of I takes place. -/
theorem index_register_counterexample :
    ∃ m0 m3, with_rom [0xAF, 0xFF, 0x61, 0x01, 0xF1, 0x1E, 0xF5, 0x33]
        Quirks.default = Except.ok m0
      ∧ applyOps [HostOp.tick 0, HostOp.tick 0, HostOp.tick 0] m0 = some m3
      ∧ m3.ri = 0x1000 ∧ step m3 0 = StepOut.crash := by
  refine ⟨_, _, rfl, rfl, rfl, rfl⟩

/-! ### Wait-key instruction (claims C2 and C9) -/

lemma lor_128 (k : Nat) (hk : k < 16) : 128 ||| k = 128 + k := by
  interval_cases k <;> rfl

lemma findPressedAux_none : ∀ (k i : Nat) (kp : Nat → Bool),
    (∀ j, i ≤ j → j < i + k → kp j = false) → findPressedAux kp i k = none := by
  intro k
  induction k with
  | zero => intro i kp _; rfl
  | succ k ih =>
    intro i kp h
    unfold findPressedAux
    rw [h i (by omega) (by omega)]
    simp only [Bool.false_eq_true, if_false]
    exact ih (i + 1) kp fun j h1 h2 => h j (by omega) (by omega)

lemma findPressedAux_some : ∀ (k i : Nat) (kp : Nat → Bool) (c : Nat),
    i ≤ c → c < i + k → kp c = true →
    ∃ k0, findPressedAux kp i k = some k0 ∧ kp k0 = true ∧ i ≤ k0 ∧ k0 ≤ c
      ∧ ∀ j, i ≤ j → j < k0 → kp j = false := by
  intro k
  induction k with
  | zero => intro i kp c h1 h2; omega
  | succ k ih =>
    intro i kp c h1 h2 h3
    unfold findPressedAux
    by_cases hi : kp i = true
    · rw [hi]
      exact ⟨i, by simp, hi, le_refl i, h1, fun j ha hb => absurd ha (by omega)⟩
    · rw [Bool.not_eq_true] at hi
      rw [hi]
      simp only [Bool.false_eq_true, if_false]
      have hic : i ≠ c := fun he => by rw [he] at hi; rw [hi] at h3; cases h3
      obtain ⟨k0, ha, hb, hc, hd, he⟩ := ih (i + 1) kp c (by omega) (by omega) h3
      refine ⟨k0, ha, hb, by omega, hd, ?_⟩
      intro j hj1 hj2
      rcases Nat.eq_or_lt_of_le hj1 with rfl | hlt
      · exact hi
      · exact he j (by omega) hj2

lemma wait_val_flag_clear (w : Chip8) (x : Nat) (h : w.memory 0x000 < 128) :
    op_wait_key x w =
      (match findPressed w.keypad with
       | some key => { w with memory := upd w.memory 0x000 ((1 <<< 7) ||| key)
                              pc := w.pc - 2 }
       | none => { w with pc := w.pc - 2 }) := by
  unfold op_wait_key
  rw [if_neg (by rw [shiftRight_7]; omega)]

lemma op_wait_key_idle (x : Nat) (w : Chip8) (h0 : w.memory 0x000 < 128)
    (hnone : ∀ j, j < 16 → w.keypad j = false) :
    op_wait_key x w = { w with pc := w.pc - 2 } := by
  rw [wait_val_flag_clear w x h0]
  have hn : findPressed w.keypad = none :=
    findPressedAux_none 16 0 w.keypad fun j h1 h2 => hnone j (by omega)
  rw [hn]

lemma op_wait_key_record (x : Nat) (w : Chip8) (h0 : w.memory 0x000 < 128)
    (c : Nat) (hc : c < 16) (hkc : w.keypad c = true) :
    ∃ k0, k0 ≤ c ∧ w.keypad k0 = true ∧ (∀ j, j < k0 → w.keypad j = false)
      ∧ op_wait_key x w = { w with memory := upd w.memory 0x000 (0x80 + k0)
                                   pc := w.pc - 2 } := by
  rw [wait_val_flag_clear w x h0]
  obtain ⟨k0, ha, hb, _, hd, he⟩ :=
    findPressedAux_some 16 0 w.keypad c (by omega) (by omega) hkc
  refine ⟨k0, hd, hb, fun j hj => he j (by omega) hj, ?_⟩
  rw [show findPressed w.keypad = some k0 from ha]
  dsimp only
  rw [show (1 <<< 7) ||| k0 = 0x80 + k0 from lor_128 k0 (by omega)]

lemma op_wait_key_hold (x k : Nat) (w : Chip8) (hk : k < 16)
    (h0 : w.memory 0x000 = 0x80 + k) (hkey : w.keypad k = true) :
    op_wait_key x w = { w with pc := w.pc - 2 } := by
  unfold op_wait_key
  rw [h0]
  rw [if_pos (by rw [shiftRight_7]; omega)]
  rw [show (0x80 + k) &&& 0xf = k from by rw [and_15_eq_mod]; omega]
  dsimp only
  rw [hkey]
  simp

lemma op_wait_key_complete (x k : Nat) (w : Chip8) (hk : k < 16)
    (h0 : w.memory 0x000 = 0x80 + k) (hkey : w.keypad k = false) :
    op_wait_key x w = { w with reg := upd w.reg x k
                               memory := upd w.memory 0x000 0 } := by
  unfold op_wait_key
  rw [h0]
  rw [if_pos (by rw [shiftRight_7]; omega)]
  rw [show (0x80 + k) &&& 0xf = k from by rw [and_15_eq_mod]; omega]
  dsimp only
  rw [hkey]
  simp

lemma teak_wait_eq (m : Chip8) (rnd x : Nat) (hpc : m.pc + 1 < 4096)
    (hx : x < 16) (h0 : m.memory m.pc = 0xF0 + x)
    (h1 : m.memory (m.pc + 1) = 0x0A) :
    teak m rnd = StepOut.ok (op_wait_key x { m with pc := m.pc + 2 }) := by
  rw [teak_eq_exec m rnd hpc, h0, h1, withBytes_decode _ _ (by omega) (by omega)]
  have hh : (0xF0 + x) / 16 = 0xf := by omega
  have hxx : (0xF0 + x) % 16 = x := by omega
  simp only [hh, hxx]
  simp only [exec]

/-- C9: with the wait-key instruction Fx0A fetched and no wait recorded
(memory byte 0 below 0x80), a step with some key pressed writes
`0x80 + k0` (k0 the lowest-numbered pressed key) into memory byte 0x000 and
rewinds pc, leaving everything else unchanged; while the recorded key stays
pressed a step changes nothing at all; when the recorded key is released,
the step writes Vx = k0, clears memory byte 0x000 and lets pc advance. -/
theorem wait_key_press_release (m : Chip8) (rnd x : Nat)
    (hpc : m.pc + 1 < 4096) (hx : x < 16)
    (h0 : m.memory m.pc = 0xF0 + x) (h1 : m.memory (m.pc + 1) = 0x0A) :
    (∀ c, c < 16 → m.keypad c = true → m.memory 0x000 < 0x80 →
      ∃ k0, k0 ≤ c ∧ m.keypad k0 = true ∧ (∀ j, j < k0 → m.keypad j = false)
        ∧ teak m rnd = StepOut.ok
            { m with memory := upd m.memory 0x000 (0x80 + k0) })
    ∧ (∀ k, k < 16 → m.memory 0x000 = 0x80 + k → m.keypad k = true →
        teak m rnd = StepOut.ok m)
    ∧ (∀ k, k < 16 → m.memory 0x000 = 0x80 + k → m.keypad k = false →
        teak m rnd = StepOut.ok { m with reg := upd m.reg x k
                                         memory := upd m.memory 0x000 0
                                         pc := m.pc + 2 }) := by
  have hT := teak_wait_eq m rnd x hpc hx h0 h1
  refine ⟨?_, ?_, ?_⟩
  · intro c hc hkc hflag
    obtain ⟨k0, ha, hb, hcj, hd⟩ :=
      op_wait_key_record x { m with pc := m.pc + 2 } hflag c hc hkc
    refine ⟨k0, ha, hb, hcj, ?_⟩
    rw [hT, hd]
    rw [show m.pc + 2 - 2 = m.pc from by omega]
  · intro k hk h0m hkey
    rw [hT, op_wait_key_hold x k { m with pc := m.pc + 2 } hk h0m hkey]
    rw [show m.pc + 2 - 2 = m.pc from by omega]
  · intro k hk h0m hkey
    rw [hT, op_wait_key_complete x k { m with pc := m.pc + 2 } hk h0m hkey]

def waitM : Chip8 :=
  { runningM with
    memory := fun a => if a = 0x200 then 0xF5 else if a = 0x201 then 0x0A else 0
    keypad := fun k => k == 5 }

def waitHoldM : Chip8 :=
  { waitM with
    memory := fun a => if a = 0x200 then 0xF5 else if a = 0x201 then 0x0A
      else if a = 0 then 0x85 else 0 }

def waitRelM : Chip8 := { waitHoldM with keypad := fun _ => false }

/-- Witness for C9 at concrete machines (opcode F50A at 0x200). -/
theorem wait_key_press_release_witness :
    (∃ k0, k0 ≤ 5 ∧ waitM.keypad k0 = true
      ∧ (∀ j, j < k0 → waitM.keypad j = false)
      ∧ teak waitM 0 = StepOut.ok
          { waitM with memory := upd waitM.memory 0x000 (0x80 + k0) })
    ∧ teak waitHoldM 0 = StepOut.ok waitHoldM
    ∧ teak waitRelM 0 = StepOut.ok
        { waitRelM with reg := upd waitRelM.reg 5 5
                        memory := upd waitRelM.memory 0x000 0
                        pc := 0x202 } := by
  refine ⟨?_, ?_, ?_⟩
  · exact (wait_key_press_release waitM 0 5 (by decide) (by decide) rfl rfl).1
      5 (by decide) (by decide) (by decide)
  · exact (wait_key_press_release waitHoldM 0 5 (by decide) (by decide)
      rfl rfl).2.1 5 (by decide) rfl rfl
  · exact (wait_key_press_release waitRelM 0 5 (by decide) (by decide)
      rfl rfl).2.2 5 (by decide) rfl rfl

/-- C2 refuted: on `waitM` (wait-key opcode F50A at pc, key 5 pressed via a
prior `key_down 5`, no wait recorded) the next `step()` does not write
V5 = 5 and does not advance pc to 0x202: it rewinds pc to 0x200 and leaves
V5 = 0, recording the key instead. -/
theorem wait_key_counterexample :
    ∃ m1, step waitM 0 = StepOut.ok m1
      ∧ m1.pc = 0x200 ∧ m1.reg 5 = 0
      ∧ ¬ (m1.reg 5 = 5 ∧ m1.pc = 0x202) := by
  refine ⟨_, rfl, by decide, by decide, by decide⟩

/-- C2 (amended): while no key is pressed and no wait is recorded, each
step on a wait-key instruction leaves the machine entirely unchanged;
after `key_down(code)` the next step records `0x80 + k0`, where k0 is the
lowest-numbered pressed key, in memory byte 0 and leaves pc, all registers
and the framebuffer unchanged; while the recorded key is still pressed,
every further step leaves the machine entirely unchanged; Vx receives the
recorded code and pc advances only on a later step in which that key is no
longer pressed. -/
theorem wait_key_amended (m : Chip8) (rnd x : Nat)
    (hpc : m.pc + 1 < 4096) (hx : x < 16)
    (h0 : m.memory m.pc = 0xF0 + x) (h1 : m.memory (m.pc + 1) = 0x0A) :
    (m.memory 0x000 < 0x80 → (∀ j, j < 16 → m.keypad j = false) →
      teak m rnd = StepOut.ok m)
    ∧ (∀ c, c < 16 → m.keypad c = true → m.memory 0x000 < 0x80 →
        ∃ m1 k0, teak m rnd = StepOut.ok m1 ∧ k0 < 16 ∧ k0 ≤ c
          ∧ m.keypad k0 = true ∧ (∀ j, j < k0 → m.keypad j = false)
          ∧ m1.memory 0x000 = 0x80 + k0 ∧ m1.pc = m.pc ∧ m1.reg = m.reg
          ∧ m1.video = m.video)
    ∧ (∀ k, k < 16 → m.memory 0x000 = 0x80 + k → m.keypad k = true →
        teak m rnd = StepOut.ok m)
    ∧ (∀ k, k < 16 → m.memory 0x000 = 0x80 + k → m.keypad k = false →
        teak m rnd = StepOut.ok { m with reg := upd m.reg x k
                                         memory := upd m.memory 0x000 0
                                         pc := m.pc + 2 }) := by
  have hT := teak_wait_eq m rnd x hpc hx h0 h1
  refine ⟨?_, ?_, ?_, ?_⟩
  · intro hflag hnone
    rw [hT, op_wait_key_idle x { m with pc := m.pc + 2 } hflag hnone]
    rw [show m.pc + 2 - 2 = m.pc from by omega]
  · intro c hc hkc hflag
    obtain ⟨k0, ha, hb, hcj, hd⟩ :=
      op_wait_key_record x { m with pc := m.pc + 2 } hflag c hc hkc
    refine ⟨{ m with memory := upd m.memory 0x000 (0x80 + k0) }, k0, ?_,
      by omega, ha, hb, hcj, ?_, rfl, rfl, rfl⟩
    · rw [hT, hd]
      rw [show m.pc + 2 - 2 = m.pc from by omega]
    · exact upd_same m.memory 0x000 (0x80 + k0)
  · intro k hk h0m hkey
    rw [hT, op_wait_key_hold x k { m with pc := m.pc + 2 } hk h0m hkey]
    rw [show m.pc + 2 - 2 = m.pc from by omega]
  · intro k hk h0m hkey
    rw [hT, op_wait_key_complete x k { m with pc := m.pc + 2 } hk h0m hkey]

def waitIdleM : Chip8 := { waitM with keypad := fun _ => false }

/-- Witness for the amended C2 at concrete machines. -/
theorem wait_key_amended_witness :
    teak waitIdleM 0 = StepOut.ok waitIdleM
    ∧ (∃ m1 k0, teak waitM 0 = StepOut.ok m1 ∧ k0 < 16 ∧ k0 ≤ 5
        ∧ waitM.keypad k0 = true ∧ (∀ j, j < k0 → waitM.keypad j = false)
        ∧ m1.memory 0x000 = 0x80 + k0 ∧ m1.pc = 0x200 ∧ m1.reg = waitM.reg
        ∧ m1.video = waitM.video)
    ∧ teak waitHoldM 0 = StepOut.ok waitHoldM
    ∧ teak waitRelM 0 = StepOut.ok
        { waitRelM with reg := upd waitRelM.reg 5 5
                        memory := upd waitRelM.memory 0x000 0
                        pc := 0x202 } := by
  refine ⟨?_, ?_, ?_, ?_⟩
  · exact (wait_key_amended waitIdleM 0 5 (by decide) (by decide) rfl rfl).1
      (by decide) (by decide)
  · exact (wait_key_amended waitM 0 5 (by decide) (by decide) rfl rfl).2.1
      5 (by decide) (by decide) (by decide)
  · exact (wait_key_amended waitHoldM 0 5 (by decide) (by decide) rfl
      rfl).2.2.1 5 (by decide) rfl rfl
  · exact (wait_key_amended waitRelM 0 5 (by decide) (by decide) rfl
      rfl).2.2.2 5 (by decide) rfl rfl

/-! ### Sprite drawing (claim C4) -/

lemma blitRow_untouched (b r col : Nat) : ∀ (k j : Nat) (v : Nat → Nat) (f q : Nat),
    (∀ t, j ≤ t → t < j + k → col + t < 64 → q ≠ r * 64 + (col + t)) →
    ((blitRow b r col j k v f).1) q = v q := by
  intro k
  induction k with
  | zero => intro j v f q _; rfl
  | succ k ih =>
    intro j v f q h
    simp only [blitRow]
    by_cases hc : 64 ≤ col + j
    · rw [if_pos hc]
    · rw [if_neg hc]
      rw [ih (j + 1) _ _ q fun t h1 h2 h3 => h t (by omega) (by omega) h3]
      exact upd_ne _ _ _ _ (h j (by omega) (by omega) (by omega))

lemma blitRow_write (b r col : Nat) : ∀ (k j : Nat) (v : Nat → Nat) (f t : Nat),
    j ≤ t → t < j + k → col + t < 64 →
    ((blitRow b r col j k v f).1) (r * 64 + (col + t)) =
      v (r * 64 + (col + t)) ^^^ ((b >>> (7 - t)) &&& 1) := by
  intro k
  induction k with
  | zero => intro j v f t h1 h2 _; omega
  | succ k ih =>
    intro j v f t h1 h2 h3
    simp only [blitRow]
    rw [if_neg (by omega)]
    rcases Nat.eq_or_lt_of_le h1 with heq | hlt
    · subst heq
      rw [blitRow_untouched b r col k (j + 1) _ _ _
        fun u hu1 hu2 hu3 he => by have := Nat.add_left_cancel he; omega]
      rw [upd_same]
    · rw [ih (j + 1) _ _ t (by omega) (by omega) h3]
      rw [upd_ne _ _ _ _ (by intro he; have := Nat.add_left_cancel he; omega)]

lemma blitRow_vf_one (b r col : Nat) : ∀ (k j : Nat) (v : Nat → Nat),
    (blitRow b r col j k v 1).2 = 1 := by
  intro k
  induction k with
  | zero => intro j v; rfl
  | succ k ih =>
    intro j v
    simp only [blitRow]
    by_cases hc : 64 ≤ col + j
    · rw [if_pos hc]
    · rw [if_neg hc]
      split
      · exact ih (j + 1) _
      · exact ih (j + 1) _

lemma blitRow_vf_pos (b r col : Nat) : ∀ (k j : Nat) (v : Nat → Nat) (f t : Nat),
    j ≤ t → t < j + k → col + t < 64 →
    0 < v (r * 64 + (col + t)) &&& ((b >>> (7 - t)) &&& 1) →
    (blitRow b r col j k v f).2 = 1 := by
  intro k
  induction k with
  | zero => intro j v f t h1 h2 _ _; omega
  | succ k ih =>
    intro j v f t h1 h2 h3 h4
    simp only [blitRow]
    rw [if_neg (by omega)]
    rcases Nat.eq_or_lt_of_le h1 with heq | hlt
    · subst heq
      rw [if_pos h4]
      exact blitRow_vf_one b r col k (j + 1) _
    · apply ih (j + 1) _ _ t (by omega) (by omega) h3
      rw [upd_ne _ _ _ _ (by intro he; have := Nat.add_left_cancel he; omega)]
      exact h4

lemma blitRow_vf_none (b r col : Nat) : ∀ (k j : Nat) (v : Nat → Nat) (f : Nat),
    (∀ t, j ≤ t → t < j + k → col + t < 64 →
      v (r * 64 + (col + t)) &&& ((b >>> (7 - t)) &&& 1) = 0) →
    (blitRow b r col j k v f).2 = f := by
  intro k
  induction k with
  | zero => intro j v f _; rfl
  | succ k ih =>
    intro j v f h
    simp only [blitRow]
    by_cases hc : 64 ≤ col + j
    · rw [if_pos hc]
    · rw [if_neg hc]
      rw [if_neg (by rw [h j (by omega) (by omega) (by omega)]; omega)]
      apply ih (j + 1)
      intro t h1 h2 h3
      rw [upd_ne _ _ _ _ (by intro he; have := Nat.add_left_cancel he; omega)]
      exact h t (by omega) (by omega) h3

lemma blitRows_untouched (mem : Nat → Nat) (ptr row col : Nat) :
    ∀ (k i : Nat) (v : Nat → Nat) (f q : Nat),
    (∀ s t, i ≤ s → s < i + k → row + s < 32 → t < 8 → col + t < 64 →
      q ≠ (row + s) * 64 + (col + t)) →
    ((blitRows mem ptr row col i k v f).1) q = v q := by
  intro k
  induction k with
  | zero => intro i v f q _; rfl
  | succ k ih =>
    intro i v f q h
    simp only [blitRows]
    by_cases hr : 32 ≤ row + i
    · rw [if_pos hr]
    · rw [if_neg hr]
      rw [ih (i + 1) _ _ q fun s t h1 h2 h3 h4 h5 => h s t (by omega) (by omega) h3 h4 h5]
      exact blitRow_untouched _ _ col 8 0 v f q
        fun t h1 h2 h3 => h i t (by omega) (by omega) (by omega) (by omega) h3

lemma blitRows_write (mem : Nat → Nat) (ptr row col : Nat) :
    ∀ (k i : Nat) (v : Nat → Nat) (f s t : Nat),
    i ≤ s → s < i + k → row + s < 32 → t < 8 → col + t < 64 →
    ((blitRows mem ptr row col i k v f).1) ((row + s) * 64 + (col + t)) =
      v ((row + s) * 64 + (col + t)) ^^^ ((mem (ptr + s) >>> (7 - t)) &&& 1) := by
  intro k
  induction k with
  | zero => intro i v f s t h1 h2 _ _ _; omega
  | succ k ih =>
    intro i v f s t h1 h2 h3 h4 h5
    simp only [blitRows]
    rw [if_neg (by omega)]
    rcases Nat.eq_or_lt_of_le h1 with heq | hlt
    · subst heq
      rw [blitRows_untouched mem ptr row col k (i + 1) _ _ _
        fun u w hu1 hu2 hu3 hw1 hw2 he => by
          have h64 : (row + i) * 64 + (col + t) = (row + u) * 64 + (col + w) := he
          omega]
      rw [blitRow_write _ _ col 8 0 v f t (by omega) (by omega) h5]
    · rw [ih (i + 1) _ _ s t (by omega) (by omega) h3 h4 h5]
      rw [blitRow_untouched _ _ col 8 0 v f _
        fun u hu1 hu2 hu3 he => by
          have h64 : (row + s) * 64 + (col + t) = (row + i) * 64 + (col + u) := he
          omega]

lemma blitRows_vf_one (mem : Nat → Nat) (ptr row col : Nat) :
    ∀ (k i : Nat) (v : Nat → Nat),
    (blitRows mem ptr row col i k v 1).2 = 1 := by
  intro k
  induction k with
  | zero => intro i v; rfl
  | succ k ih =>
    intro i v
    simp only [blitRows]
    by_cases hr : 32 ≤ row + i
    · rw [if_pos hr]
    · rw [if_neg hr]
      rw [blitRow_vf_one _ _ col 8 0 v]
      exact ih (i + 1) _

lemma blitRows_vf_pos (mem : Nat → Nat) (ptr row col : Nat) :
    ∀ (k i : Nat) (v : Nat → Nat) (f s t : Nat),
    i ≤ s → s < i + k → row + s < 32 → t < 8 → col + t < 64 →
    0 < v ((row + s) * 64 + (col + t)) &&& ((mem (ptr + s) >>> (7 - t)) &&& 1) →
    (blitRows mem ptr row col i k v f).2 = 1 := by
  intro k
  induction k with
  | zero => intro i v f s t h1 h2 _ _ _ _; omega
  | succ k ih =>
    intro i v f s t h1 h2 h3 h4 h5 h6
    simp only [blitRows]
    rw [if_neg (by omega)]
    rcases Nat.eq_or_lt_of_le h1 with heq | hlt
    · subst heq
      rw [blitRow_vf_pos _ _ col 8 0 v f t (by omega) (by omega) h5 h6]
      exact blitRows_vf_one mem ptr row col k (i + 1) _
    · apply ih (i + 1) _ _ s t (by omega) (by omega) h3 h4 h5
      rw [blitRow_untouched _ _ col 8 0 v f _
        fun u hu1 hu2 hu3 he => by
          have h64 : (row + s) * 64 + (col + t) = (row + i) * 64 + (col + u) := he
          omega]
      exact h6

lemma blitRows_vf_none (mem : Nat → Nat) (ptr row col : Nat) :
    ∀ (k i : Nat) (v : Nat → Nat) (f : Nat),
    (∀ s t, i ≤ s → s < i + k → row + s < 32 → t < 8 → col + t < 64 →
      v ((row + s) * 64 + (col + t)) &&& ((mem (ptr + s) >>> (7 - t)) &&& 1) = 0) →
    (blitRows mem ptr row col i k v f).2 = f := by
  intro k
  induction k with
  | zero => intro i v f _; rfl
  | succ k ih =>
    intro i v f h
    simp only [blitRows]
    by_cases hr : 32 ≤ row + i
    · rw [if_pos hr]
    · rw [if_neg hr]
      rw [blitRow_vf_none _ _ col 8 0 v f
        fun t h1 h2 h3 => h i t (by omega) (by omega) (by omega) (by omega) h3]
      apply ih (i + 1)
      intro s t h1 h2 h3 h4 h5
      rw [blitRow_untouched _ _ col 8 0 v f _
        fun u hu1 hu2 hu3 he => by
          have h64 : (row + s) * 64 + (col + t) = (row + i) * 64 + (col + u) := he
          omega]
      exact h s t (by omega) (by omega) h3 h4 h5

lemma land_pos_iff (a b : Nat) (ha : a ≤ 1) (hb : b ≤ 1) :
    0 < a &&& b ↔ (a = 1 ∧ b = 1) := by
  interval_cases a <;> interval_cases b <;> decide

/-- C4: with the sprite slice in bounds and a 0/1 framebuffer, draw-sprite
draws from origin (Vy mod 32, Vx mod 64): inside the clipped rectangle each
destination pixel becomes its XOR with the sprite bit (byte `I + row
offset`, most-significant bit first), every other pixel is unchanged
(pixels past row 31 / column 63 are dropped, never wrapped); VF = 1 iff
some drawn pixel had destination 1 and source bit 1 — computed fresh, VF
ends as 0 or 1 independently of its previous value, and no register other
than VF changes. -/
theorem draw_sprite_semantics (m : Chip8) (x y n : Nat)
    (hri : m.ri + n ≤ 4096) (hv : ∀ q, m.video q ≤ 1) :
    ∃ m1, op_display x y n m = some m1
      ∧ (∀ r c, r < 32 → c < 64 →
          (m.reg y % 32 ≤ r → r < m.reg y % 32 + n →
           m.reg x % 64 ≤ c → c < m.reg x % 64 + 8 →
            m1.video (r * 64 + c) = m.video (r * 64 + c) ^^^
              ((m.memory (m.ri + (r - m.reg y % 32)) >>>
                (7 - (c - m.reg x % 64))) &&& 1))
          ∧ (¬ (m.reg y % 32 ≤ r ∧ r < m.reg y % 32 + n ∧
                m.reg x % 64 ≤ c ∧ c < m.reg x % 64 + 8) →
              m1.video (r * 64 + c) = m.video (r * 64 + c)))
      ∧ (m1.reg 0xf = 1 ↔ ∃ s t, s < n ∧ t < 8 ∧ m.reg y % 32 + s < 32
          ∧ m.reg x % 64 + t < 64
          ∧ m.video ((m.reg y % 32 + s) * 64 + (m.reg x % 64 + t)) = 1
          ∧ (m.memory (m.ri + s) >>> (7 - t)) &&& 1 = 1)
      ∧ (∀ i, i ≠ 0xf → m1.reg i = m.reg i)
      ∧ (m1.reg 0xf = 0 ∨ m1.reg 0xf = 1) := by
  have hop : op_display x y n m = some
      { m with
        video := (blitRows m.memory m.ri (m.reg y % 32) (m.reg x % 64)
          0 n m.video 0).1
        reg := upd m.reg 0xf (blitRows m.memory m.ri (m.reg y % 32)
          (m.reg x % 64) 0 n m.video 0).2 } := by
    unfold op_display
    rw [if_neg (by omega)]
  set P := blitRows m.memory m.ri (m.reg y % 32) (m.reg x % 64) 0 n m.video 0
    with hP
  have hcase : (P.2 = 1 ∧ ∃ s t, s < n ∧ t < 8 ∧ m.reg y % 32 + s < 32
        ∧ m.reg x % 64 + t < 64
        ∧ m.video ((m.reg y % 32 + s) * 64 + (m.reg x % 64 + t)) = 1
        ∧ (m.memory (m.ri + s) >>> (7 - t)) &&& 1 = 1)
      ∨ (P.2 = 0 ∧ ¬ ∃ s t, s < n ∧ t < 8 ∧ m.reg y % 32 + s < 32
        ∧ m.reg x % 64 + t < 64
        ∧ m.video ((m.reg y % 32 + s) * 64 + (m.reg x % 64 + t)) = 1
        ∧ (m.memory (m.ri + s) >>> (7 - t)) &&& 1 = 1) := by
    by_cases hex : ∃ s t, s < n ∧ t < 8 ∧ m.reg y % 32 + s < 32
        ∧ m.reg x % 64 + t < 64
        ∧ m.video ((m.reg y % 32 + s) * 64 + (m.reg x % 64 + t)) = 1
        ∧ (m.memory (m.ri + s) >>> (7 - t)) &&& 1 = 1
    · left
      obtain ⟨s, t, h1, h2, h3, h4, h5, h6⟩ := hex
      refine ⟨?_, s, t, h1, h2, h3, h4, h5, h6⟩
      rw [hP]
      exact blitRows_vf_pos m.memory m.ri (m.reg y % 32) (m.reg x % 64) n 0
        m.video 0 s t (by omega) (by omega) h3 h2 h4 (by rw [h5, h6]; decide)
    · right
      refine ⟨?_, hex⟩
      rw [hP]
      apply blitRows_vf_none m.memory m.ri (m.reg y % 32) (m.reg x % 64) n 0
        m.video 0
      intro s t h1 h2 h3 h4 h5
      rcases Nat.eq_zero_or_pos (m.video ((m.reg y % 32 + s) * 64 +
        (m.reg x % 64 + t)) &&& ((m.memory (m.ri + s) >>> (7 - t)) &&& 1))
        with h0 | hpos
      · exact h0
      · exfalso
        apply hex
        have hl := (land_pos_iff _ _ (hv _) Nat.and_le_right).mp hpos
        exact ⟨s, t, by omega, h4, h3, h5, hl.1, hl.2⟩
  refine ⟨_, hop, ?_, ?_, ?_, ?_⟩
  · intro r c hr hc
    constructor
    · intro h1 h2 h3 h4
      have hw := blitRows_write m.memory m.ri (m.reg y % 32) (m.reg x % 64)
        n 0 m.video 0 (r - m.reg y % 32) (c - m.reg x % 64)
        (by omega) (by omega) (by omega) (by omega) (by omega)
      rw [show m.reg y % 32 + (r - m.reg y % 32) = r from by omega,
        show m.reg x % 64 + (c - m.reg x % 64) = c from by omega] at hw
      exact hw
    · intro hnot
      exact blitRows_untouched m.memory m.ri (m.reg y % 32) (m.reg x % 64)
        n 0 m.video 0 (r * 64 + c)
        fun s t h1 h2 h3 h4 h5 he => by omega
  · rcases hcase with ⟨hvf, hex⟩ | ⟨hvf, hex⟩
    · constructor
      · intro _
        exact hex
      · intro _
        show upd m.reg 0xf P.2 0xf = 1
        rw [upd_same, hvf]
    · constructor
      · intro h1
        exfalso
        have h2 : upd m.reg 0xf P.2 0xf = 1 := h1
        rw [upd_same, hvf] at h2
        cases h2
      · intro h1
        exact absurd h1 hex
  · intro i hi
    exact upd_ne m.reg 0xf i P.2 hi
  · rcases hcase with ⟨hvf, _⟩ | ⟨hvf, _⟩
    · right
      show upd m.reg 0xf P.2 0xf = 1
      rw [upd_same, hvf]
    · left
      show upd m.reg 0xf P.2 0xf = 0
      rw [upd_same, hvf]

def drawM : Chip8 :=
  { runningM with
    ri := 0x300
    memory := fun a => if a = 0x300 then 0xFF else 0 }

def drawC : Chip8 :=
  { drawM with video := fun q => if q = 0 then 1 else 0 }

/-- Witness for C4: drawing byte 0xFF at (0,0) on an empty framebuffer
lights pixels 0-7 with VF = 0; the same draw over an already-lit pixel 0
clears it and reports the collision in VF. -/
theorem draw_sprite_semantics_witness :
    (∃ m1, op_display 0 0 1 drawM = some m1
      ∧ m1.video 0 = 1 ∧ m1.video 7 = 1 ∧ m1.video 8 = 0 ∧ m1.reg 0xf = 0)
    ∧ (∃ m2, op_display 0 0 1 drawC = some m2
      ∧ m2.video 0 = 0 ∧ m2.reg 0xf = 1) := by
  constructor
  · obtain ⟨m1, hop, hvid, hvf, hreg, h01⟩ :=
      draw_sprite_semantics drawM 0 0 1 (by decide) (fun _ => Nat.zero_le 1)
    refine ⟨m1, hop, ?_, ?_, ?_, ?_⟩
    · exact (hvid 0 0 (by decide) (by decide)).1 (by decide) (by decide)
        (by decide) (by decide)
    · exact (hvid 0 7 (by decide) (by decide)).1 (by decide) (by decide)
        (by decide) (by decide)
    · exact (hvid 0 8 (by decide) (by decide)).2 (by decide)
    · rcases h01 with h0 | h1
      · exact h0
      · exfalso
        obtain ⟨s, t, _, _, _, _, h5, _⟩ := hvf.mp h1
        exact Nat.zero_ne_one h5
  · obtain ⟨m2, hop, hvid, hvf, hreg, h01⟩ :=
      draw_sprite_semantics drawC 0 0 1 (by decide)
        (fun q => by show (if q = 0 then (1 : Nat) else 0) ≤ 1; split <;> decide)
    refine ⟨m2, hop, ?_, ?_⟩
    · exact (hvid 0 0 (by decide) (by decide)).1 (by decide) (by decide)
        (by decide) (by decide)
    · exact hvf.mpr ⟨0, 0, by decide, by decide, by decide, by decide,
        by decide, by decide⟩

/-! ### Reset round-trip (claim C7) -/

def OutRQ (m : Chip8) : StepOut → Prop
  | .crash => True
  | .fault _ m1 => m1.rom = m.rom ∧ m1.quirks = m.quirks
  | .ok m1 => m1.rom = m.rom ∧ m1.quirks = m.quirks

lemma outRQ_trans {m m1 : Chip8} {o : StepOut} (h : OutRQ m1 o)
    (h1 : m1.rom = m.rom) (h2 : m1.quirks = m.quirks) : OutRQ m o := by
  cases o with
  | crash => trivial
  | fault e m2 => exact ⟨h.1.trans h1, h.2.trans h2⟩
  | ok m2 => exact ⟨h.1.trans h1, h.2.trans h2⟩

lemma push_rq {v : Nat} {m m1 : Chip8} (h : push v m = Except.ok m1) :
    m1.rom = m.rom ∧ m1.quirks = m.quirks := by
  unfold push at h
  split at h
  · cases h
  · injection h with h
    subst h
    exact ⟨rfl, rfl⟩

lemma pop_rq {m m1 : Chip8} {v : Nat} (h : pop m = Except.ok (v, m1)) :
    m1.rom = m.rom ∧ m1.quirks = m.quirks := by
  unfold pop at h
  split at h
  · cases h
  · injection h with h
    injection h with h3 h4
    subst h4
    exact ⟨rfl, rfl⟩

lemma op_return_rq {m m1 : Chip8} (h : op_return m = Except.ok m1) :
    m1.rom = m.rom ∧ m1.quirks = m.quirks := by
  unfold op_return at h
  cases hp : pop m with
  | error e => rw [hp] at h; cases h
  | ok p =>
    rw [hp] at h
    simp only [Except.map] at h
    injection h with h
    subst h
    have hp2 : pop m = Except.ok (p.1, p.2) := by rw [hp]
    obtain ⟨h1, h2⟩ := pop_rq hp2
    exact ⟨h1, h2⟩

lemma op_call_rq {a : Nat} {m m1 : Chip8} (h : op_call a m = Except.ok m1) :
    m1.rom = m.rom ∧ m1.quirks = m.quirks := by
  unfold op_call at h
  cases hp : push (m.pc % 65536) m with
  | error e => rw [hp] at h; cases h
  | ok m2 =>
    rw [hp] at h
    simp only [Except.map] at h
    injection h with h
    subst h
    obtain ⟨h1, h2⟩ := push_rq hp
    exact ⟨h1, h2⟩

lemma op_display_rq {x y n : Nat} {m m1 : Chip8}
    (h : op_display x y n m = some m1) :
    m1.rom = m.rom ∧ m1.quirks = m.quirks := by
  simp only [op_display] at h
  split at h
  · cases h
  · injection h with h
    subst h
    exact ⟨rfl, rfl⟩

lemma op_bdc_rq {x : Nat} {m m1 : Chip8} (h : op_bdc x m = some m1) :
    m1.rom = m.rom ∧ m1.quirks = m.quirks := by
  simp only [op_bdc] at h
  split at h
  · injection h with h
    subst h
    exact ⟨rfl, rfl⟩
  · cases h

lemma op_reg_dump_rq {x : Nat} {m m1 : Chip8} (h : op_reg_dump x m = some m1) :
    m1.rom = m.rom ∧ m1.quirks = m.quirks := by
  simp only [op_reg_dump] at h
  split at h
  · injection h with h
    subst h
    exact ⟨rfl, rfl⟩
  · cases h

lemma op_reg_load_rq {x : Nat} {m m1 : Chip8} (h : op_reg_load x m = some m1) :
    m1.rom = m.rom ∧ m1.quirks = m.quirks := by
  simp only [op_reg_load] at h
  split at h
  · injection h with h
    subst h
    exact ⟨rfl, rfl⟩
  · cases h

lemma op_skip_key_eq_rq {x : Nat} {m m1 : Chip8}
    (h : op_skip_key_eq x m = some m1) :
    m1.rom = m.rom ∧ m1.quirks = m.quirks := by
  simp only [op_skip_key_eq] at h
  split at h
  · injection h with h
    subst h
    split <;> exact ⟨rfl, rfl⟩
  · cases h

lemma op_skip_key_ne_rq {x : Nat} {m m1 : Chip8}
    (h : op_skip_key_ne x m = some m1) :
    m1.rom = m.rom ∧ m1.quirks = m.quirks := by
  simp only [op_skip_key_ne] at h
  split at h
  · injection h with h
    subst h
    split <;> exact ⟨rfl, rfl⟩
  · cases h

lemma op_or_rq {x y : Nat} {m : Chip8} :
    (op_or x y m).rom = m.rom ∧ (op_or x y m).quirks = m.quirks := by
  simp only [op_or]
  split <;> exact ⟨rfl, rfl⟩

lemma op_and_rq {x y : Nat} {m : Chip8} :
    (op_and x y m).rom = m.rom ∧ (op_and x y m).quirks = m.quirks := by
  simp only [op_and]
  split <;> exact ⟨rfl, rfl⟩

lemma op_xor_rq {x y : Nat} {m : Chip8} :
    (op_xor x y m).rom = m.rom ∧ (op_xor x y m).quirks = m.quirks := by
  simp only [op_xor]
  split <;> exact ⟨rfl, rfl⟩

lemma op_wait_key_rq {x : Nat} {m : Chip8} :
    (op_wait_key x m).rom = m.rom ∧ (op_wait_key x m).quirks = m.quirks := by
  simp only [op_wait_key]
  split
  · split <;> exact ⟨rfl, rfl⟩
  · split <;> exact ⟨rfl, rfl⟩

lemma op_skip_eq_rq {x v : Nat} {m : Chip8} :
    (op_skip_eq x v m).rom = m.rom ∧ (op_skip_eq x v m).quirks = m.quirks := by
  simp only [op_skip_eq]
  split <;> exact ⟨rfl, rfl⟩

lemma op_skip_ne_rq {x v : Nat} {m : Chip8} :
    (op_skip_ne x v m).rom = m.rom ∧ (op_skip_ne x v m).quirks = m.quirks := by
  simp only [op_skip_ne]
  split <;> exact ⟨rfl, rfl⟩

lemma op_skip_reg_eq_rq {x y : Nat} {m : Chip8} :
    (op_skip_reg_eq x y m).rom = m.rom
      ∧ (op_skip_reg_eq x y m).quirks = m.quirks := by
  simp only [op_skip_reg_eq]
  split <;> exact ⟨rfl, rfl⟩

lemma op_skip_reg_ne_rq {x y : Nat} {m : Chip8} :
    (op_skip_reg_ne x y m).rom = m.rom
      ∧ (op_skip_reg_ne x y m).quirks = m.quirks := by
  simp only [op_skip_reg_ne]
  split <;> exact ⟨rfl, rfl⟩

lemma exec_rq (i : Instruction) (m : Chip8) (rnd : Nat) :
    OutRQ m (exec i m rnd) := by
  unfold exec
  repeat' split
  all_goals
    first
      | trivial
      | exact ⟨rfl, rfl⟩
      | exact op_or_rq
      | exact op_and_rq
      | exact op_xor_rq
      | exact op_wait_key_rq
      | exact op_skip_eq_rq
      | exact op_skip_ne_rq
      | exact op_skip_reg_eq_rq
      | exact op_skip_reg_ne_rq
      | (rename_i h
         first
           | exact op_return_rq h
           | exact op_call_rq h
           | exact op_display_rq h
           | exact op_bdc_rq h
           | exact op_reg_dump_rq h
           | exact op_reg_load_rq h
           | exact op_skip_key_eq_rq h
           | exact op_skip_key_ne_rq h)

lemma teak_rq (m : Chip8) (rnd : Nat) : OutRQ m (teak m rnd) := by
  unfold teak
  split
  · exact outRQ_trans (exec_rq _ _ _) rfl rfl
  · trivial

lemma step_rq (m : Chip8) (rnd : Nat) : OutRQ m (step m rnd) := by
  unfold step
  split
  · exact ⟨rfl, rfl⟩
  · exact teak_rq m rnd
  · exact ⟨rfl, rfl⟩

lemma applyOp_rq {op : HostOp} {m m1 : Chip8} (h : applyOp op m = some m1) :
    m1.rom = m.rom ∧ m1.quirks = m.quirks := by
  cases op with
  | tick rnd =>
    have hs := step_rq m rnd
    unfold applyOp at h
    dsimp only at h
    cases hst : step m rnd with
    | crash => rw [hst] at h; cases h
    | fault e m2 =>
      rw [hst] at h
      injection h with h
      subst h
      rw [hst] at hs
      exact hs
    | ok m2 =>
      rw [hst] at h
      injection h with h
      subst h
      rw [hst] at hs
      exact hs
  | timer =>
    unfold applyOp on_timer at h
    dsimp only at h
    injection h with h
    subst h
    exact ⟨rfl, rfl⟩
  | keyDown c =>
    unfold applyOp key_down at h
    dsimp only at h
    split at h
    · injection h with h
      subst h
      exact ⟨rfl, rfl⟩
    · cases h
  | keyUp c =>
    unfold applyOp key_up at h
    dsimp only at h
    split at h
    · injection h with h
      subst h
      exact ⟨rfl, rfl⟩
    · cases h
  | toggle =>
    unfold applyOp toggle_execution at h
    dsimp only at h
    injection h with h
    subst h
    exact ⟨rfl, rfl⟩

lemma applyOps_rq : ∀ (ops : List HostOp) (m m1 : Chip8),
    applyOps ops m = some m1 → m1.rom = m.rom ∧ m1.quirks = m.quirks := by
  intro ops
  induction ops with
  | nil =>
    intro m m1 h
    injection h with h
    subst h
    exact ⟨rfl, rfl⟩
  | cons op ops ih =>
    intro m m1 h
    unfold applyOps at h
    split at h
    · rename_i m2 heq
      obtain ⟨h1, h2⟩ := ih m2 m1 h
      obtain ⟨h3, h4⟩ := applyOp_rq heq
      exact ⟨h1.trans h3, h2.trans h4⟩
    · cases h

/-- C7: after construction with any ROM and quirks, any finite sequence of
host operations (step ticks, timer ticks, key events, execution toggles)
followed by `reset()` restores exactly the post-construction machine: no
operation ever changes the retained ROM or the quirk bundle, and `reset`
rebuilds every other field from those two alone. -/
theorem reset_roundtrip (rom : List Nat) (q : Quirks) (ops : List HostOp)
    (m0 m1 : Chip8) (h0 : with_rom rom q = Except.ok m0)
    (h1 : applyOps ops m0 = some m1) : Chip8.reset m1 = m0 := by
  unfold with_rom at h0
  split at h0
  · cases h0
  · injection h0 with h0
    obtain ⟨hr, hq⟩ := applyOps_rq ops m0 m1 h1
    subst h0
    unfold Chip8.reset
    rw [hr, hq]
    rfl

/-- The machine constructed from the two-byte ROM 0x6007. -/
def romM : Chip8 := Chip8.reset
  { reg := fun _ => 0, ri := 0, dt := 0, st := 0, sp := 0, pc := 0x200
    memory := fun _ => 0, video := fun _ => 0, keypad := fun _ => false
    state := .Paused, rom := [0x60, 0x07], quirks := Quirks.default }

/-- Witness for C7: a concrete run (one executed instruction 0x6007, a
timer tick, a key press, a pause toggle) followed by `reset` restores the
constructed machine. -/
theorem reset_roundtrip_witness :
    ∃ m1, with_rom [0x60, 0x07] Quirks.default = Except.ok romM
      ∧ applyOps [HostOp.tick 0, HostOp.timer, HostOp.keyDown 3,
          HostOp.toggle] romM = some m1
      ∧ Chip8.reset m1 = romM := by
  refine ⟨_, rfl, rfl,
    reset_roundtrip [0x60, 0x07] Quirks.default
      [HostOp.tick 0, HostOp.timer, HostOp.keyDown 3, HostOp.toggle]
      romM _ rfl rfl⟩
